import Mathlib

/-!
Verification of the glyph-cache and text-layout core of SDL_FontCache
(src/SDL_FontCache.cpp), via a shallow embedding in Lean.

Conventions used throughout this development:
* C byte strings are `List Nat` of byte values (0..255), without the final
  NUL terminator unless stated otherwise; reading at or past the end of the
  list yields the terminator byte 0 (`byteAt`).
* C `int` values are `Int`; `Uint16` values are `Nat` with an explicit
  `% 65536` where the C code narrows; `Sint16`/`Uint16` narrowing
  conversions at call boundaries are `toSint16` / `toUint16`.
* `float` values (text cursor positions, scale factors) are modelled as
  exact rationals `Rat`; none of the proved properties depends on float
  rounding.
* External collaborators (SDL renderer, TTF rasterizer) are modelled as
  oracles passed in explicitly; external side effects (blits, render-target
  switches) have no observable effect on the embedded state and are omitted.
-/

/-- Read the byte at offset `i` of a NUL-terminated byte string; positions at
or past the end read the terminator, which is byte 0. -/
def byteAt (s : List Nat) (i : Nat) : Nat := s.getD i 0

/-- `U8_charsize` (src/SDL_FontCache.cpp:399): classify a UTF-8 leading byte
into the declared character length (1 to 4 bytes). -/
def charsize (b : Nat) : Nat :=
  if b ≤ 0x7F then 1
  else if b < 0xE0 then 2
  else if b < 0xF0 then 3
  else 4

/-- `FC_GetUTF8FromCodepoint` (src/SDL_FontCache.cpp:593): split the 32-bit
codepoint big-endian into bytes `a b c d` (`a = (cp >> 24) & 0xFF`, written
here as `cp / 16777216 % 256`, and so on), then write the shortest suffix
whose dropped leading bytes are all zero, followed by a NUL terminator.
The returned list is the bytes written into `result`, terminator included. -/
def FC_GetUTF8FromCodepoint (codepoint : Nat) : List Nat :=
  if codepoint / 16777216 % 256 = 0 then
    if codepoint / 65536 % 256 = 0 then
      if codepoint / 256 % 256 = 0 then
        [codepoint % 256, 0]
      else
        [codepoint / 256 % 256, codepoint % 256, 0]
    else
      [codepoint / 65536 % 256, codepoint / 256 % 256, codepoint % 256, 0]
  else
    [codepoint / 16777216 % 256, codepoint / 65536 % 256,
      codepoint / 256 % 256, codepoint % 256, 0]

/-- `FC_GetCodepointFromUTF8` (src/SDL_FontCache.cpp:639). The argument `c`
is a pointer to a string pointer: `none` models a null `c`, `some none` a
non-null `c` holding a null string pointer, and `some (some str)` a pointer
to the remaining bytes `str` of the NUL-terminated string. Returns the
decoded codepoint together with the final state of `c`; advancing drops
`charsize - 1` consumed bytes, mirroring the C `*c += len - 1` convention
(the caller performs one further single-byte step itself). The `result`
accumulator starts at 0 and is built with `|=` on shifted bytes, exactly as
in the source. -/
def FC_GetCodepointFromUTF8 (c : Option (Option (List Nat))) (advance_pointer : Bool) :
    Nat × Option (Option (List Nat)) :=
  match c with
  | none => (0, none)
  | some none => (0, some none)
  | some (some str) =>
    let b0 := byteAt str 0
    if b0 ≤ 0x7F then
      (b0, some (some str))
    else if b0 < 0xE0 then
      ((0 ||| (b0 <<< 8)) ||| byteAt str 1,
        if advance_pointer then some (some (str.drop 1)) else some (some str))
    else if b0 < 0xF0 then
      (((0 ||| (b0 <<< 16)) ||| (byteAt str 1 <<< 8)) ||| byteAt str 2,
        if advance_pointer then some (some (str.drop 2)) else some (some str))
    else
      ((((0 ||| (b0 <<< 24)) ||| (byteAt str 1 <<< 16)) ||| (byteAt str 2 <<< 8)) ||| byteAt str 3,
        if advance_pointer then some (some (str.drop 3)) else some (some str))

/-- The codepoint ranges whose UTF-8 shape is respected by the codec: ASCII
(one byte), the generic two-byte range (leading byte `0x80..0xDF`, which
contains the Latin-1 supplement `0xC2A0..0xC3BF`), the generic three-byte
range (leading byte `0xE0..0xEF`) and the generic four-byte range (leading
byte `0xF0..0xFF`), in the big-endian packed representation the library
uses. -/
def RoundTripRange (c : Nat) : Prop :=
  c < 0x80 ∨
  (0x8000 ≤ c ∧ c < 0xE000) ∨
  (0xE00000 ≤ c ∧ c < 0xF00000) ∨
  (0xF0000000 ≤ c ∧ c < 0x100000000)

theorem lor_small (a b k : Nat) (h : b < 2 ^ k) : (a <<< k) ||| b = a * 2 ^ k + b := by
  rw [Nat.shiftLeft_eq, Nat.mul_comm a (2 ^ k)]
  exact (Nat.mul_add_lt_is_or h a).symm

/-- Claim C2: for every codepoint in the ASCII range, the Latin-1 supplement,
and the generic 2/3/4-byte ranges, decoding the UTF-8 encoding of the
codepoint yields the codepoint back; in particular decoding the 3-byte
sequence E2 82 AC yields 0x00E282AC, and encoding 0x00E282AC yields those
same 3 bytes plus a NUL terminator. -/
theorem utf8_roundtrip :
    (∀ c : Nat, RoundTripRange c →
      (FC_GetCodepointFromUTF8 (some (some (FC_GetUTF8FromCodepoint c))) true).1 = c) ∧
    (FC_GetCodepointFromUTF8 (some (some [0xE2, 0x82, 0xAC, 0])) true).1 = 0xE282AC ∧
    FC_GetUTF8FromCodepoint 0xE282AC = [0xE2, 0x82, 0xAC, 0] := by
  refine ⟨?_, by decide, by decide⟩
  intro c h
  rcases h with h | ⟨h1, h2⟩ | ⟨h1, h2⟩ | ⟨h1, h2⟩
  · -- one byte: c < 0x80
    have e1 : c / 16777216 % 256 = 0 := by omega
    have e2 : c / 65536 % 256 = 0 := by omega
    have e3 : c / 256 % 256 = 0 := by omega
    have he : FC_GetUTF8FromCodepoint c = [c % 256, 0] := by
      unfold FC_GetUTF8FromCodepoint
      simp [e1, e2, e3]
    rw [he]
    have hb : byteAt [c % 256, 0] 0 = c % 256 := rfl
    unfold FC_GetCodepointFromUTF8
    simp only [hb]
    rw [if_pos (by omega : c % 256 ≤ 0x7F)]
    omega
  · -- two bytes: leading byte 0x80..0xDF
    have e1 : c / 16777216 % 256 = 0 := by omega
    have e2 : c / 65536 % 256 = 0 := by omega
    have e3 : ¬ c / 256 % 256 = 0 := by omega
    have he : FC_GetUTF8FromCodepoint c = [c / 256 % 256, c % 256, 0] := by
      unfold FC_GetUTF8FromCodepoint
      simp [e1, e2, e3]
    rw [he]
    unfold FC_GetCodepointFromUTF8
    have hb0 : byteAt [c / 256 % 256, c % 256, 0] 0 = c / 256 % 256 := rfl
    have hb1 : byteAt [c / 256 % 256, c % 256, 0] 1 = c % 256 := rfl
    simp only [hb0, hb1]
    rw [if_neg (by omega : ¬ c / 256 % 256 ≤ 0x7F),
      if_pos (by omega : c / 256 % 256 < 0xE0)]
    rw [Nat.zero_or, lor_small _ _ 8 (by omega)]
    omega
  · -- three bytes: leading byte 0xE0..0xEF
    have e1 : c / 16777216 % 256 = 0 := by omega
    have e2 : ¬ c / 65536 % 256 = 0 := by omega
    have he : FC_GetUTF8FromCodepoint c =
        [c / 65536 % 256, c / 256 % 256, c % 256, 0] := by
      unfold FC_GetUTF8FromCodepoint
      simp [e1, e2]
    rw [he]
    unfold FC_GetCodepointFromUTF8
    have hb0 : byteAt [c / 65536 % 256, c / 256 % 256, c % 256, 0] 0 = c / 65536 % 256 := rfl
    have hb1 : byteAt [c / 65536 % 256, c / 256 % 256, c % 256, 0] 1 = c / 256 % 256 := rfl
    have hb2 : byteAt [c / 65536 % 256, c / 256 % 256, c % 256, 0] 2 = c % 256 := rfl
    simp only [hb0, hb1, hb2]
    rw [if_neg (by omega : ¬ c / 65536 % 256 ≤ 0x7F),
      if_neg (by omega : ¬ c / 65536 % 256 < 0xE0),
      if_pos (by omega : c / 65536 % 256 < 0xF0)]
    rw [Nat.zero_or, Nat.or_assoc, lor_small _ _ 8 (by omega),
      lor_small _ _ 16 (by omega)]
    omega
  · -- four bytes: leading byte 0xF0..0xFF
    have e1 : ¬ c / 16777216 % 256 = 0 := by omega
    have he : FC_GetUTF8FromCodepoint c =
        [c / 16777216 % 256, c / 65536 % 256, c / 256 % 256, c % 256, 0] := by
      unfold FC_GetUTF8FromCodepoint
      simp [e1]
    rw [he]
    unfold FC_GetCodepointFromUTF8
    have hb0 : byteAt [c / 16777216 % 256, c / 65536 % 256, c / 256 % 256, c % 256, 0] 0 =
        c / 16777216 % 256 := rfl
    have hb1 : byteAt [c / 16777216 % 256, c / 65536 % 256, c / 256 % 256, c % 256, 0] 1 =
        c / 65536 % 256 := rfl
    have hb2 : byteAt [c / 16777216 % 256, c / 65536 % 256, c / 256 % 256, c % 256, 0] 2 =
        c / 256 % 256 := rfl
    have hb3 : byteAt [c / 16777216 % 256, c / 65536 % 256, c / 256 % 256, c % 256, 0] 3 =
        c % 256 := rfl
    simp only [hb0, hb1, hb2, hb3]
    rw [if_neg (by omega : ¬ c / 16777216 % 256 ≤ 0x7F),
      if_neg (by omega : ¬ c / 16777216 % 256 < 0xE0),
      if_neg (by omega : ¬ c / 16777216 % 256 < 0xF0)]
    rw [Nat.zero_or, Nat.or_assoc, Nat.or_assoc, lor_small _ _ 8 (by omega),
      lor_small _ _ 16 (by omega), lor_small _ _ 24 (by omega)]
    omega

/-- Witness for C2: the round trip at the concrete Latin-1 supplement
codepoint 0xC2A0. -/
theorem utf8_roundtrip_witness :
    RoundTripRange 0xC2A0 ∧
      (FC_GetCodepointFromUTF8 (some (some (FC_GetUTF8FromCodepoint 0xC2A0))) true).1 =
        0xC2A0 :=
  ⟨by unfold RoundTripRange; omega,
    utf8_roundtrip.1 0xC2A0 (by unfold RoundTripRange; omega)⟩

/-- Claim C10: `FC_GetCodepointFromUTF8` called on a null pointer, or on a
pointer holding a null string pointer, returns codepoint 0 and leaves the
pointer unchanged, regardless of the `advance_pointer` flag. -/
theorem getCodepoint_null (advance_pointer : Bool) :
    FC_GetCodepointFromUTF8 none advance_pointer = (0, none) ∧
    FC_GetCodepointFromUTF8 (some none) advance_pointer = (0, some none) :=
  ⟨rfl, rfl⟩

/-! ## Glyph map (src/SDL_FontCache.cpp:171-299) -/

/-- `SDL_Rect`: four `int` fields. -/
structure SDLRect where
  x : Int
  y : Int
  w : Int
  h : Int
deriving Repr, DecidableEq

/-- `FC_GlyphData`: a source rectangle inside an atlas texture plus the
cache-level index of that texture. -/
structure FC_GlyphData where
  rect : SDLRect
  cache_level : Int
deriving Repr, DecidableEq

/-- Narrow an `int` value to `Uint16`, as the C conversion does. -/
def toUint16 (v : Int) : Int := v % 65536

/-- Narrow an `int` value to `Sint16` (two's complement), as the C conversion
does. -/
def toSint16 (v : Int) : Int :=
  if 32768 ≤ v % 65536 then v % 65536 - 65536 else v % 65536

/-- `FC_MakeGlyphData` (src/SDL_FontCache.cpp:171). Its parameters are
`(int cache_level, Sint16 x, Sint16 y, Uint16 w, Uint16 h)`; the narrowing
conversions applied at the call boundary are made explicit here, and the
narrowed values widen back to `int` when stored in the `SDL_Rect`. -/
def FC_MakeGlyphData (cache_level x y w h : Int) : FC_GlyphData :=
  { rect := { x := toSint16 x, y := toSint16 y, w := toUint16 w, h := toUint16 h },
    cache_level := cache_level }

/-- `FC_Map` (src/SDL_FontCache.cpp:195): a fixed number of buckets, each a
chain of `(key, value)` nodes kept in insertion order. The C chains are
singly-linked `FC_MapNode` lists; here each bucket is the list of its nodes
from head to tail. -/
structure FC_Map where
  num_buckets : Nat
  buckets : List (List (Nat × FC_GlyphData))
deriving Repr, DecidableEq

/-- `FC_MapCreate` (src/SDL_FontCache.cpp:203): all buckets start empty. -/
def FC_MapCreate (num_buckets : Nat) : FC_Map :=
  { num_buckets := num_buckets, buckets := List.replicate num_buckets [] }

/-- `FC_MapInsert` (src/SDL_FontCache.cpp:243): walk the bucket selected by
`codepoint % num_buckets` to its tail and append a new node there; an empty
bucket receives the node directly. Duplicates are not handled in any special
way. (The C function also returns a pointer to the inserted value and
tolerates a null map; the null-map case cannot arise for the states modelled
here.) -/
def FC_MapInsert (map : FC_Map) (codepoint : Nat) (glyph : FC_GlyphData) : FC_Map :=
  let index := codepoint % map.num_buckets
  { map with
    buckets := map.buckets.set index (map.buckets.getD index [] ++ [(codepoint, glyph)]) }

/-- Linear scan of one bucket chain, returning the first node whose key
matches. -/
def findInChain : List (Nat × FC_GlyphData) → Nat → Option FC_GlyphData
  | [], _ => none
  | (k, v) :: rest, codepoint =>
    if k = codepoint then some v else findInChain rest codepoint

/-- `FC_MapFind` (src/SDL_FontCache.cpp:281): scan the bucket selected by
`codepoint % num_buckets` from its head and return the first match. -/
def FC_MapFind (map : FC_Map) (codepoint : Nat) : Option FC_GlyphData :=
  findInChain (map.buckets.getD (codepoint % map.num_buckets) []) codepoint

theorem findInChain_append (l l' : List (Nat × FC_GlyphData)) (cp : Nat) :
    findInChain (l ++ l') cp =
      match findInChain l cp with
      | some v => some v
      | none => findInChain l' cp := by
  induction l with
  | nil => rfl
  | cons hd tl ih =>
    obtain ⟨k, v⟩ := hd
    by_cases hk : k = cp
    · simp [findInChain, hk]
    · simp only [List.cons_append, findInChain, if_neg hk]
      exact ih

theorem getD_set_self {α : Type} (l : List α) (i : Nat) (x d : α) (h : i < l.length) :
    (l.set i x).getD i d = x := by
  rw [List.getD_eq_getElem?_getD, List.getElem?_set_self h]
  rfl

theorem mapInsert_bucket (m : FC_Map) (cp : Nat) (v : FC_GlyphData)
    (hlen : m.buckets.length = m.num_buckets) (hpos : 0 < m.num_buckets) :
    (FC_MapInsert m cp v).buckets.getD (cp % m.num_buckets) [] =
      m.buckets.getD (cp % m.num_buckets) [] ++ [(cp, v)] := by
  unfold FC_MapInsert
  exact getD_set_self _ _ _ _ (by rw [hlen]; exact Nat.mod_lt _ hpos)

theorem mapFind_insert_self (m : FC_Map) (cp : Nat) (v : FC_GlyphData)
    (hlen : m.buckets.length = m.num_buckets) (hpos : 0 < m.num_buckets) :
    FC_MapFind (FC_MapInsert m cp v) cp =
      match FC_MapFind m cp with
      | some v0 => some v0
      | none => some v := by
  have hidx : cp % m.num_buckets < m.buckets.length := by
    rw [hlen]; exact Nat.mod_lt _ hpos
  unfold FC_MapFind FC_MapInsert
  rw [getD_set_self _ _ _ _ (by exact hidx)]
  rw [findInChain_append]
  cases hfc : findInChain (m.buckets.getD (cp % m.num_buckets) []) cp with
  | none => simp [findInChain]
  | some v0 => rfl

/-- Claim C8: inserting the same codepoint twice appends the second entry
after the first at the tail of the bucket chain, and a subsequent lookup
returns the first-inserted value (first-wins), for any well-formed map that
does not yet contain the codepoint. -/
theorem map_duplicate_insert (m : FC_Map) (cp : Nat) (v1 v2 : FC_GlyphData)
    (hlen : m.buckets.length = m.num_buckets) (hpos : 0 < m.num_buckets)
    (habsent : FC_MapFind m cp = none) :
    FC_MapFind (FC_MapInsert (FC_MapInsert m cp v1) cp v2) cp = some v1 ∧
    (FC_MapInsert (FC_MapInsert m cp v1) cp v2).buckets.getD (cp % m.num_buckets) [] =
      m.buckets.getD (cp % m.num_buckets) [] ++ [(cp, v1), (cp, v2)] := by
  have hidx : cp % m.num_buckets < m.buckets.length := by
    rw [hlen]; exact Nat.mod_lt _ hpos
  have hnum1 : (FC_MapInsert m cp v1).num_buckets = m.num_buckets := rfl
  have hlen1 : (FC_MapInsert m cp v1).buckets.length = m.num_buckets := by
    unfold FC_MapInsert
    simpa using hlen
  have hb1 : (FC_MapInsert m cp v1).buckets.getD (cp % m.num_buckets) [] =
      m.buckets.getD (cp % m.num_buckets) [] ++ [(cp, v1)] :=
    mapInsert_bucket m cp v1 hlen hpos
  constructor
  · rw [mapFind_insert_self _ _ _ (by rw [hlen1, hnum1]) (by rw [hnum1]; exact hpos)]
    rw [mapFind_insert_self _ _ _ hlen hpos, habsent]
  · have hb2 := mapInsert_bucket (FC_MapInsert m cp v1) cp v2
      (by rw [hlen1, hnum1]) (by rw [hnum1]; exact hpos)
    rw [hnum1] at hb2
    rw [hb2, hb1, List.append_assoc]
    rfl

/-- Witness for C8 at a concrete map: two inserts of codepoint 65 into a
fresh 3-bucket map. -/
theorem map_duplicate_insert_witness :
    ((FC_MapCreate 3).buckets.length = (FC_MapCreate 3).num_buckets ∧
      0 < (FC_MapCreate 3).num_buckets ∧
      FC_MapFind (FC_MapCreate 3) 65 = none) ∧
    (FC_MapFind
        (FC_MapInsert (FC_MapInsert (FC_MapCreate 3) 65 (FC_MakeGlyphData 0 1 1 5 7))
          65 (FC_MakeGlyphData 1 2 2 6 8)) 65 = some (FC_MakeGlyphData 0 1 1 5 7) ∧
      (FC_MapInsert (FC_MapInsert (FC_MapCreate 3) 65 (FC_MakeGlyphData 0 1 1 5 7))
          65 (FC_MakeGlyphData 1 2 2 6 8)).buckets.getD (65 % (FC_MapCreate 3).num_buckets) [] =
        (FC_MapCreate 3).buckets.getD (65 % (FC_MapCreate 3).num_buckets) [] ++
          [(65, FC_MakeGlyphData 0 1 1 5 7), (65, FC_MakeGlyphData 1 2 2 6 8)]) :=
  ⟨⟨by decide, by decide, by decide⟩,
    map_duplicate_insert (FC_MapCreate 3) 65 _ _ (by decide) (by decide) (by decide)⟩

/-! ## Font state and the atlas packer (src/SDL_FontCache.cpp:303-334, 748-753, 916-998) -/

/-- The parts of `struct FC_Font` the glyph cache and packer operate on:
the glyph map, the packing cursor `last_glyph`, the cache-level textures
(modelled by their pixel sizes), the cache-level count, the font pixel
height (`Uint16`), and whether a TTF source is attached. -/
structure FontState where
  glyphs : FC_Map
  last_glyph : FC_GlyphData
  glyph_cache_count : Int
  glyph_cache : List (Nat × Nat)
  height : Nat
  ttf_source : Bool
deriving Repr, DecidableEq

/-- The packing cursor as set by `FC_Init` (src/SDL_FontCache.cpp:748-753):
`x = y = FC_CACHE_PADDING = 1`, `w = h = 0`, `cache_level = 0`. -/
def FC_InitLastGlyph : FC_GlyphData :=
  { rect := { x := 1, y := 1, w := 0, h := 0 }, cache_level := 0 }

/-- The tail of `FC_PackGlyphData` (src/SDL_FontCache.cpp:950-954): move the
cursor to the next free space (`rect.x += rect.w + 1 + FC_CACHE_PADDING`,
`rect.w = width`) and insert the recorded rectangle into the glyph map via
`FC_MakeGlyphData`. -/
def packPlace (font : FontState) (codepoint width : Nat) : Option FC_GlyphData × FontState :=
  (some (FC_MakeGlyphData font.last_glyph.cache_level
      (font.last_glyph.rect.x + font.last_glyph.rect.w + 1 + 1)
      font.last_glyph.rect.y (width : Int) font.last_glyph.rect.h),
    { font with
        last_glyph :=
          { rect := { x := font.last_glyph.rect.x + font.last_glyph.rect.w + 1 + 1,
                      y := font.last_glyph.rect.y,
                      w := (width : Int),
                      h := font.last_glyph.rect.h },
            cache_level := font.last_glyph.cache_level },
        glyphs := FC_MapInsert font.glyphs codepoint
          (FC_MakeGlyphData font.last_glyph.cache_level
            (font.last_glyph.rect.x + font.last_glyph.rect.w + 1 + 1)
            font.last_glyph.rect.y (width : Int) font.last_glyph.rect.h) })

/-- The TAB special case of `FC_PackGlyphData` (src/SDL_FontCache.cpp:922-928):
for codepoint 9 the packed width is `fc_tab_width * space_glyph.rect.w`
(a `Uint16` store of an `unsigned int` product); the C code obtains the
space glyph through `FC_GetGlyphData(font, &spaceGlyph, ' ')`, which we
model by the direct map lookup of the already-cached space glyph (when
absent the C code reads an uninitialized local; we keep the incoming width
in that unreachable case). -/
def packWidth (font : FontState) (fc_tab_width codepoint width0 : Nat) : Nat :=
  if codepoint = 9 then
    match FC_MapFind font.glyphs 32 with
    | some spaceGlyph => fc_tab_width * spaceGlyph.rect.w.toNat % 65536
    | none => width0
  else width0

/-- `FC_PackGlyphData` (src/SDL_FontCache.cpp:916-955). `width0`, `maxWidth`
and `maxHeight` are the `Uint16` parameters; comparisons happen after
promotion to `int`, hence over `Int` here. `FC_CACHE_PADDING = 1`, and the
local `Uint16 height = font->height + FC_CACHE_PADDING` is
`(font.height + 1) % 65536`. On level exhaustion the cursor is parked for
the not-yet-existing level `glyph_cache_count` and the call fails without
touching the map. -/
def FC_PackGlyphData (font : FontState) (fc_tab_width codepoint width0 maxWidth maxHeight : Nat) :
    Option FC_GlyphData × FontState :=
  if font.last_glyph.rect.x + font.last_glyph.rect.w +
      ((packWidth font fc_tab_width codepoint width0 : Nat) : Int) ≥ (maxWidth : Int) - 1 then
    if font.last_glyph.rect.y + (((font.height + 1) % 65536 : Nat) : Int) +
        (((font.height + 1) % 65536 : Nat) : Int) ≥ (maxHeight : Int) - 1 then
      (none,
        { font with
            last_glyph :=
              { rect := { x := 1, y := 1, w := 0, h := font.last_glyph.rect.h },
                cache_level := font.glyph_cache_count } })
    else
      packPlace
        { font with
            last_glyph :=
              { rect := { x := 1,
                          y := font.last_glyph.rect.y + (((font.height + 1) % 65536 : Nat) : Int),
                          w := 0,
                          h := font.last_glyph.rect.h },
                cache_level := font.last_glyph.cache_level } }
        codepoint (packWidth font fc_tab_width codepoint width0)
  else
    packPlace font codepoint (packWidth font fc_tab_width codepoint width0)

theorem toSint16_eq (v : Int) (h0 : 0 ≤ v) (h1 : v ≤ 32767) : toSint16 v = v := by
  unfold toSint16
  rw [Int.emod_eq_of_lt h0 (by omega)]
  rw [if_neg (by omega)]

theorem toUint16_eq (v : Int) (h0 : 0 ≤ v) (h1 : v ≤ 65535) : toUint16 v = v := by
  unfold toUint16
  exact Int.emod_eq_of_lt h0 (by omega)

/-- A font right after loading on a fresh 100 by 100 pixel cache level:
cursor at the top-left margin, pixel height 10. -/
def packTestFont : FontState :=
  { glyphs := FC_MapCreate 300,
    last_glyph := { rect := { x := 1, y := 1, w := 0, h := 10 }, cache_level := 0 },
    glyph_cache_count := 1,
    glyph_cache := [(100, 100)],
    height := 10,
    ttf_source := true }

/-- Claim C1 as stated is false: packing three glyphs of width 10 into a
fresh 100-px-wide level with margin 1 records them at x = 3, 15, 27 (the
cursor advances by `previous width + 1 + margin`), not at x = 1, 12, 23;
in particular the first recorded rectangle is at x = 3, not at the initial
cursor position x = 1. -/
theorem pack_three_glyphs_not_at_1_12_23 :
    ((FC_PackGlyphData packTestFont 4 65 10 100 100).1.map fun g => g.rect.x) = some 3 ∧
    ((FC_PackGlyphData (FC_PackGlyphData packTestFont 4 65 10 100 100).2
        4 66 10 100 100).1.map fun g => g.rect.x) = some 15 ∧
    ((FC_PackGlyphData (FC_PackGlyphData (FC_PackGlyphData packTestFont 4 65 10 100 100).2
        4 66 10 100 100).2 4 67 10 100 100).1.map fun g => g.rect.x) = some 27 ∧
    ¬ ((FC_PackGlyphData packTestFont 4 65 10 100 100).1.map fun g => g.rect.x) = some 1 := by
  refine ⟨by decide, by decide, by decide, by decide⟩

/-- Claim C1, amended: when a non-TAB glyph of width `w` fits in the current
shelf row (`cursor.x + cursor.w + w < maxWidth − margin`), the glyph is
recorded at `(cursor.x + cursor.w + 1 + margin, cursor.y)` — the cursor x
advances by the previous glyph's width plus `1 + margin` and the recorded
rectangle sits at the new cursor position — and concretely three width-10
glyphs packed into a fresh 100-px-wide level with margin 1 are recorded at
x = 3, 15, 27. -/
theorem pack_fits_row :
    (∀ (font : FontState) (fc_tab_width codepoint width maxWidth maxHeight : Nat),
      codepoint ≠ 9 →
      font.last_glyph.rect.x + font.last_glyph.rect.w + (width : Int) <
        (maxWidth : Int) - 1 →
      0 ≤ font.last_glyph.rect.x →
      0 ≤ font.last_glyph.rect.w →
      font.last_glyph.rect.x + font.last_glyph.rect.w + 2 ≤ 32767 →
      0 ≤ font.last_glyph.rect.y → font.last_glyph.rect.y ≤ 32767 →
      0 ≤ font.last_glyph.rect.h → font.last_glyph.rect.h ≤ 65535 →
      width ≤ 65535 →
      (FC_PackGlyphData font fc_tab_width codepoint width maxWidth maxHeight).1 =
        some { rect := { x := font.last_glyph.rect.x + font.last_glyph.rect.w + 1 + 1,
                         y := font.last_glyph.rect.y,
                         w := (width : Int),
                         h := font.last_glyph.rect.h },
               cache_level := font.last_glyph.cache_level } ∧
      (FC_PackGlyphData font fc_tab_width codepoint width maxWidth maxHeight).2.last_glyph =
        { rect := { x := font.last_glyph.rect.x + font.last_glyph.rect.w + 1 + 1,
                    y := font.last_glyph.rect.y,
                    w := (width : Int),
                    h := font.last_glyph.rect.h },
          cache_level := font.last_glyph.cache_level } ∧
      (FC_PackGlyphData font fc_tab_width codepoint width maxWidth maxHeight).2.glyphs =
        FC_MapInsert font.glyphs codepoint
          { rect := { x := font.last_glyph.rect.x + font.last_glyph.rect.w + 1 + 1,
                      y := font.last_glyph.rect.y,
                      w := (width : Int),
                      h := font.last_glyph.rect.h },
            cache_level := font.last_glyph.cache_level }) ∧
    (((FC_PackGlyphData packTestFont 4 65 10 100 100).1.map fun g => g.rect.x) = some 3 ∧
      ((FC_PackGlyphData (FC_PackGlyphData packTestFont 4 65 10 100 100).2
          4 66 10 100 100).1.map fun g => g.rect.x) = some 15 ∧
      ((FC_PackGlyphData (FC_PackGlyphData (FC_PackGlyphData packTestFont 4 65 10 100 100).2
          4 66 10 100 100).2 4 67 10 100 100).1.map fun g => g.rect.x) = some 27) := by
  constructor
  · intro font fc_tab_width codepoint width maxWidth maxHeight hcp hfit hx0 hw0 hx1 hy0 hy1 hh0 hh1 hwidth
    have hpw : packWidth font fc_tab_width codepoint width = width := by
      unfold packWidth
      rw [if_neg hcp]
    have hgd : FC_MakeGlyphData font.last_glyph.cache_level
        (font.last_glyph.rect.x + font.last_glyph.rect.w + 1 + 1)
        font.last_glyph.rect.y (width : Int) font.last_glyph.rect.h =
        { rect := { x := font.last_glyph.rect.x + font.last_glyph.rect.w + 1 + 1,
                    y := font.last_glyph.rect.y,
                    w := (width : Int),
                    h := font.last_glyph.rect.h },
          cache_level := font.last_glyph.cache_level } := by
      unfold FC_MakeGlyphData
      rw [toSint16_eq _ (by omega) (by omega), toSint16_eq _ hy0 hy1,
        toUint16_eq _ (by omega) (by omega), toUint16_eq _ hh0 hh1]
    unfold FC_PackGlyphData
    rw [hpw]
    rw [if_neg (by omega)]
    unfold packPlace
    rw [hgd]
    exact ⟨rfl, rfl, rfl⟩
  · exact ⟨by decide, by decide, by decide⟩

/-- Witness for the amended C1 at concrete inputs: the first pack of a
width-10 glyph on the fresh test font. -/
theorem pack_fits_row_witness :
    ((65 : Nat) ≠ 9 ∧
      packTestFont.last_glyph.rect.x + packTestFont.last_glyph.rect.w + ((10 : Nat) : Int) <
        ((100 : Nat) : Int) - 1) ∧
    (FC_PackGlyphData packTestFont 4 65 10 100 100).1 =
      some { rect := { x := packTestFont.last_glyph.rect.x + packTestFont.last_glyph.rect.w + 1 + 1,
                       y := packTestFont.last_glyph.rect.y,
                       w := ((10 : Nat) : Int),
                       h := packTestFont.last_glyph.rect.h },
             cache_level := packTestFont.last_glyph.cache_level } :=
  ⟨⟨by decide, by decide⟩,
    (pack_fits_row.1 packTestFont 4 65 10 100 100 (by decide) (by decide) (by decide)
      (by decide) (by decide) (by decide) (by decide) (by decide) (by decide) (by decide)).1⟩

/-- Claim C5: when a non-TAB glyph fits neither in the current row nor in a
fresh row of the current level, `FC_PackGlyphData` parks the cursor on the
not-yet-existing level whose index is the current level count, resets the
cursor to the top-left margin (x = y = 1, width 0), and fails without
inserting anything into the glyph map and without touching the cache-level
list or count. -/
theorem pack_level_exhausted (font : FontState)
    (fc_tab_width codepoint width maxWidth maxHeight : Nat)
    (hcp : codepoint ≠ 9)
    (hrow : font.last_glyph.rect.x + font.last_glyph.rect.w + (width : Int) ≥
      (maxWidth : Int) - 1)
    (hcol : font.last_glyph.rect.y + (((font.height + 1) % 65536 : Nat) : Int) +
        (((font.height + 1) % 65536 : Nat) : Int) ≥ (maxHeight : Int) - 1) :
    (FC_PackGlyphData font fc_tab_width codepoint width maxWidth maxHeight).1 = none ∧
    (FC_PackGlyphData font fc_tab_width codepoint width maxWidth maxHeight).2.glyphs =
      font.glyphs ∧
    (FC_PackGlyphData font fc_tab_width codepoint width maxWidth maxHeight).2.glyph_cache =
      font.glyph_cache ∧
    (FC_PackGlyphData font fc_tab_width codepoint width maxWidth maxHeight).2.glyph_cache_count =
      font.glyph_cache_count ∧
    (FC_PackGlyphData font fc_tab_width codepoint width maxWidth maxHeight).2.last_glyph.cache_level =
      font.glyph_cache_count ∧
    (FC_PackGlyphData font fc_tab_width codepoint width maxWidth maxHeight).2.last_glyph.rect.x = 1 ∧
    (FC_PackGlyphData font fc_tab_width codepoint width maxWidth maxHeight).2.last_glyph.rect.y = 1 ∧
    (FC_PackGlyphData font fc_tab_width codepoint width maxWidth maxHeight).2.last_glyph.rect.w = 0 := by
  have hpw : packWidth font fc_tab_width codepoint width = width := by
    unfold packWidth
    rw [if_neg hcp]
  unfold FC_PackGlyphData
  rw [hpw]
  rw [if_pos (by exact hrow), if_pos (by exact hcol)]
  exact ⟨rfl, rfl, rfl, rfl, rfl, rfl, rfl, rfl⟩

/-- Witness for C5: a width-95 glyph on the fresh test font, whose 100 by
100 level has no room for it in the current row nor vertical room for a
fresh row check at the bottom of the level. -/
theorem pack_level_exhausted_witness :
    ((65 : Nat) ≠ 9 ∧
      packTestFont.last_glyph.rect.x + packTestFont.last_glyph.rect.w + ((98 : Nat) : Int) ≥
        ((100 : Nat) : Int) - 1 ∧
      packTestFont.last_glyph.rect.y + (((packTestFont.height + 1) % 65536 : Nat) : Int) +
          (((packTestFont.height + 1) % 65536 : Nat) : Int) ≥ ((24 : Nat) : Int) - 1) ∧
    ((FC_PackGlyphData packTestFont 4 65 98 100 24).1 = none ∧
      (FC_PackGlyphData packTestFont 4 65 98 100 24).2.glyphs = packTestFont.glyphs ∧
      (FC_PackGlyphData packTestFont 4 65 98 100 24).2.glyph_cache = packTestFont.glyph_cache ∧
      (FC_PackGlyphData packTestFont 4 65 98 100 24).2.glyph_cache_count =
        packTestFont.glyph_cache_count ∧
      (FC_PackGlyphData packTestFont 4 65 98 100 24).2.last_glyph.cache_level =
        packTestFont.glyph_cache_count ∧
      (FC_PackGlyphData packTestFont 4 65 98 100 24).2.last_glyph.rect.x = 1 ∧
      (FC_PackGlyphData packTestFont 4 65 98 100 24).2.last_glyph.rect.y = 1 ∧
      (FC_PackGlyphData packTestFont 4 65 98 100 24).2.last_glyph.rect.w = 0) :=
  ⟨⟨by decide, by decide, by decide⟩,
    pack_level_exhausted packTestFont 4 65 98 100 24 (by decide) (by decide) (by decide)⟩

/-! ## Text measurement (src/SDL_FontCache.cpp:2264-2292) -/

/-- The view of a loaded font that the layout and measurement functions use.
`glyph` abstracts `FC_GetGlyphData` as a pure lookup: within one layout call
the data returned for a codepoint is stable (glyph rectangles are immutable
once assigned), so the on-demand caching side effect is invisible to the
layout layer. `none` models a `FC_GetGlyphData` failure. -/
structure RenderFont where
  glyph : Nat → Option FC_GlyphData
  height : Nat
  lineSpacing : Int
  letterSpacing : Int
  glyph_cache_count : Nat

/-- The glyph/fallback rule shared by drawing and measurement:
`FC_GetGlyphData(font, &glyph, codepoint) || FC_GetGlyphData(font, &glyph, ' ')`. -/
def resolvedGlyph (f : RenderFont) (codepoint : Nat) : Option FC_GlyphData :=
  match f.glyph codepoint with
  | some g => some g
  | none => f.glyph 32

/-- One `width += glyph.rect.w` step of `FC_GetWidth`: a `Uint16` accumulator
receives an `int` sum, hence the wrap modulo 65536; when both the codepoint
and the space fallback fail, nothing is added. -/
def addGlyphWidth (f : RenderFont) (codepoint width : Nat) : Nat :=
  match resolvedGlyph f codepoint with
  | some g => (((width : Int) + g.rect.w) % 65536).toNat
  | none => width

/-- The character loop of `FC_GetWidth` (src/SDL_FontCache.cpp:2275-2288):
on a newline, fold the running line width into `bigWidth` and reset; on any
other byte, decode one UTF-8 character (consuming its declared length) and
add the resolved glyph width. At the end of the string the running width is
folded in once more. -/
def FC_GetWidthLoop (f : RenderFont) : List Nat → Nat → Nat → Nat
  | [], width, bigWidth => max bigWidth width
  | b :: rest, width, bigWidth =>
    if b = 10 then
      FC_GetWidthLoop f rest 0 (max bigWidth width)
    else
      FC_GetWidthLoop f (rest.drop (charsize b - 1))
        (addGlyphWidth f (FC_GetCodepointFromUTF8 (some (some (b :: rest))) true).1 width)
        bigWidth
  termination_by l => l.length
  decreasing_by
    · simp
    · simp only [List.length_drop, List.length_cons]
      omega

/-- `FC_GetWidth` (src/SDL_FontCache.cpp:2264): null font or null text give
width 0; otherwise run the character loop over the formatted text with both
accumulators at 0. (The varargs formatting into `fc_buffer` is modelled as
the identity on the already-formatted byte string.) -/
def FC_GetWidth (font : Option RenderFont) (text : Option (List Nat)) : Nat :=
  match text, font with
  | none, _ => 0
  | _, none => 0
  | some bytes, some f => FC_GetWidthLoop f bytes 0 0

/-- `FC_Explode` (src/SDL_FontCache.cpp:1596): split a byte string on a
delimiter byte, dropping the delimiters; the piece in progress is pushed at
the terminator, so the result always has one piece more than there are
delimiters. -/
def FC_Explode (delimiter : Nat) : List Nat → List (List Nat)
  | [] => [[]]
  | b :: rest =>
    if b = delimiter then
      [] :: FC_Explode delimiter rest
    else
      match FC_Explode delimiter rest with
      | [] => [[b]]
      | l :: ls => (b :: l) :: ls

/-- `FC_ExplodeAndKeep` (src/SDL_FontCache.cpp:1685): like `FC_Explode`, but
each piece after the first keeps its leading delimiter byte (the C code
restarts `start` at the delimiter with `size = 1`). -/
def FC_ExplodeAndKeep (delimiter : Nat) (text : List Nat) : List (List Nat) :=
  match FC_Explode delimiter text with
  | [] => []
  | p :: ps => p :: ps.map (fun q => delimiter :: q)

/-- Specification-side single-line measure: the sum of resolved glyph widths
over the decoded characters of a newline-free line, with the same `Uint16`
accumulation as `FC_GetWidth`. -/
def lineWidthSum (f : RenderFont) : List Nat → Nat → Nat
  | [], width => width
  | b :: rest, width =>
    lineWidthSum f (rest.drop (charsize b - 1))
      (addGlyphWidth f (FC_GetCodepointFromUTF8 (some (some (b :: rest))) true).1 width)
  termination_by l => l.length
  decreasing_by
    simp only [List.length_drop, List.length_cons]
    omega

/-- Well-formedness of a byte string for the character walk: no newline byte
is hidden inside the continuation bytes of a declared multi-byte character
(true of all valid UTF-8, where continuation bytes are 0x80..0xBF). -/
def noNLInChar : List Nat → Bool
  | [] => true
  | b :: rest =>
    (rest.take (charsize b - 1)).all (fun x => x ≠ 10) &&
      noNLInChar (rest.drop (charsize b - 1))
  termination_by l => l.length
  decreasing_by
    simp only [List.length_drop, List.length_cons]
    omega

theorem byteAt_take_append (rest l0 : List Nat) (k j : Nat) (hj : j < k) (hk : k ≤ rest.length) :
    byteAt (rest.take k ++ l0) j = byteAt rest j := by
  unfold byteAt
  have hjl : j < (rest.take k).length := by
    rw [List.length_take]
    omega
  rw [List.getD_eq_getElem?_getD, List.getD_eq_getElem?_getD, List.getElem?_append_left hjl]
  congr 1
  exact List.getElem?_take_of_lt hj

theorem byteAt_cons_succ (b : Nat) (t : List Nat) (i : Nat) :
    byteAt (b :: t) (i + 1) = byteAt t i := rfl

theorem decode_one (b : Nat) (t : List Nat) (h1 : b ≤ 0x7F) :
    (FC_GetCodepointFromUTF8 (some (some (b :: t))) true).1 = b := by
  unfold FC_GetCodepointFromUTF8
  have e0 : byteAt (b :: t) 0 = b := rfl
  simp only [e0, if_pos h1]

theorem decode_two (b : Nat) (t : List Nat) (h1 : ¬ b ≤ 0x7F) (h2 : b < 0xE0) :
    (FC_GetCodepointFromUTF8 (some (some (b :: t))) true).1 =
      (0 ||| (b <<< 8)) ||| byteAt t 0 := by
  unfold FC_GetCodepointFromUTF8
  have e0 : byteAt (b :: t) 0 = b := rfl
  simp only [e0, if_neg h1, if_pos h2, byteAt_cons_succ]

theorem decode_three (b : Nat) (t : List Nat) (h1 : ¬ b ≤ 0x7F) (h2 : ¬ b < 0xE0)
    (h3 : b < 0xF0) :
    (FC_GetCodepointFromUTF8 (some (some (b :: t))) true).1 =
      ((0 ||| (b <<< 16)) ||| (byteAt t 0 <<< 8)) ||| byteAt t 1 := by
  unfold FC_GetCodepointFromUTF8
  have e0 : byteAt (b :: t) 0 = b := rfl
  simp only [e0, if_neg h1, if_neg h2, if_pos h3, byteAt_cons_succ]

theorem decode_four (b : Nat) (t : List Nat) (h1 : ¬ b ≤ 0x7F) (h2 : ¬ b < 0xE0)
    (h3 : ¬ b < 0xF0) :
    (FC_GetCodepointFromUTF8 (some (some (b :: t))) true).1 =
      (((0 ||| (b <<< 24)) ||| (byteAt t 0 <<< 16)) ||| (byteAt t 1 <<< 8)) ||| byteAt t 2 := by
  unfold FC_GetCodepointFromUTF8
  have e0 : byteAt (b :: t) 0 = b := rfl
  simp only [e0, if_neg h1, if_neg h2, if_neg h3, byteAt_cons_succ]

theorem decode_agree (b : Nat) (rest l0 : List Nat) (hk : charsize b - 1 ≤ rest.length) :
    (FC_GetCodepointFromUTF8 (some (some (b :: (rest.take (charsize b - 1) ++ l0)))) true).1 =
      (FC_GetCodepointFromUTF8 (some (some (b :: rest))) true).1 := by
  by_cases h1 : b ≤ 0x7F
  · rw [decode_one b _ h1, decode_one b _ h1]
  · by_cases h2 : b < 0xE0
    · have hcs : charsize b - 1 = 1 := by unfold charsize; rw [if_neg h1, if_pos h2]
      rw [hcs] at hk ⊢
      rw [decode_two b _ h1 h2, decode_two b _ h1 h2,
        byteAt_take_append rest l0 1 0 (by omega) hk]
    · by_cases h3 : b < 0xF0
      · have hcs : charsize b - 1 = 2 := by
          unfold charsize
          rw [if_neg h1, if_neg h2, if_pos h3]
        rw [hcs] at hk ⊢
        rw [decode_three b _ h1 h2 h3, decode_three b _ h1 h2 h3,
          byteAt_take_append rest l0 2 0 (by omega) hk,
          byteAt_take_append rest l0 2 1 (by omega) hk]
      · have hcs : charsize b - 1 = 3 := by
          unfold charsize
          rw [if_neg h1, if_neg h2, if_neg h3]
        rw [hcs] at hk ⊢
        rw [decode_four b _ h1 h2 h3, decode_four b _ h1 h2 h3,
          byteAt_take_append rest l0 3 0 (by omega) hk,
          byteAt_take_append rest l0 3 1 (by omega) hk,
          byteAt_take_append rest l0 3 2 (by omega) hk]

theorem explode_ne_nil (d : Nat) (l : List Nat) : FC_Explode d l ≠ [] := by
  induction l with
  | nil => simp [FC_Explode]
  | cons b rest ih =>
    unfold FC_Explode
    by_cases hb : b = d
    · simp [hb]
    · rw [if_neg hb]
      cases hr : FC_Explode d rest with
      | nil => simp
      | cons l0 ls => simp

theorem explode_append (d : Nat) (pre l : List Nat) (h : ∀ x ∈ pre, x ≠ d)
    (l0 : List Nat) (ls : List (List Nat)) (hex : FC_Explode d l = l0 :: ls) :
    FC_Explode d (pre ++ l) = (pre ++ l0) :: ls := by
  induction pre with
  | nil => simpa using hex
  | cons b pre' ih =>
    have hb : b ≠ d := h b (by simp)
    have ih' := ih (fun x hx => h x (by simp [hx]))
    simp only [List.cons_append]
    unfold FC_Explode
    rw [if_neg hb, ih']

theorem explode_cons_self (d : Nat) (rest : List Nat) :
    FC_Explode d (d :: rest) = [] :: FC_Explode d rest := by
  conv_lhs => unfold FC_Explode
  rw [if_pos rfl]

theorem lineWidthSum_nil (f : RenderFont) (w : Nat) : lineWidthSum f [] w = w := by
  rw [lineWidthSum]

theorem lineWidthSum_cons (f : RenderFont) (b : Nat) (rest : List Nat) (w : Nat) :
    lineWidthSum f (b :: rest) w =
      lineWidthSum f (rest.drop (charsize b - 1))
        (addGlyphWidth f (FC_GetCodepointFromUTF8 (some (some (b :: rest))) true).1 w) := by
  conv_lhs => rw [lineWidthSum]

theorem widthLoop_split (f : RenderFont) :
    ∀ (n : Nat) (bytes : List Nat), bytes.length ≤ n →
    ∀ (w big : Nat) (l0 : List Nat) (ls : List (List Nat)),
      noNLInChar bytes = true → FC_Explode 10 bytes = l0 :: ls →
      FC_GetWidthLoop f bytes w big =
        List.foldl max big
          (lineWidthSum f l0 w :: ls.map fun l2 => lineWidthSum f l2 0) := by
  intro n
  induction n with
  | zero =>
    intro bytes hlen w big l0 ls hnl hex
    have hb : bytes = [] := List.length_eq_zero.mp (by omega)
    subst hb
    rw [show FC_Explode 10 ([] : List Nat) = [[]] from rfl] at hex
    injection hex with hex1 hex2
    subst hex1
    subst hex2
    simp [FC_GetWidthLoop, lineWidthSum]
  | succ n ih =>
    intro bytes hlen w big l0 ls hnl hex
    cases bytes with
    | nil =>
      rw [show FC_Explode 10 ([] : List Nat) = [[]] from rfl] at hex
      injection hex with hex1 hex2
      subst hex1
      subst hex2
      simp [FC_GetWidthLoop, lineWidthSum]
    | cons b rest =>
      simp only [noNLInChar, Bool.and_eq_true, List.all_eq_true, decide_eq_true_eq] at hnl
      obtain ⟨hnl1, hnl2⟩ := hnl
      have hrest : rest.length ≤ n := by
        simp only [List.length_cons] at hlen
        omega
      by_cases hb : b = 10
      · subst hb
        have hcs : charsize 10 - 1 = 0 := by decide
        rw [hcs] at hnl2
        rw [explode_cons_self 10 rest] at hex
        injection hex with hex1 hex2
        subst hex1
        obtain ⟨l0', ls', heq⟩ : ∃ l0' ls', FC_Explode 10 rest = l0' :: ls' := by
          cases h : FC_Explode 10 rest with
          | nil => exact absurd h (explode_ne_nil _ _)
          | cons a as => exact ⟨a, as, rfl⟩
        rw [show FC_GetWidthLoop f (10 :: rest) w big =
            FC_GetWidthLoop f rest 0 (max big w) by
          rw [FC_GetWidthLoop]; rw [if_pos rfl]]
        rw [ih rest hrest 0 (max big w) l0' ls' (by simpa using hnl2) heq]
        rw [← hex2, heq]
        simp [lineWidthSum, List.foldl_cons]
      · by_cases hk : charsize b - 1 ≤ rest.length
        · -- the character is fully inside the string
          obtain ⟨l0', ls', heq⟩ : ∃ l0' ls',
              FC_Explode 10 (rest.drop (charsize b - 1)) = l0' :: ls' := by
            cases h : FC_Explode 10 (rest.drop (charsize b - 1)) with
            | nil => exact absurd h (explode_ne_nil _ _)
            | cons a as => exact ⟨a, as, rfl⟩
          have hpre : ∀ x ∈ b :: rest.take (charsize b - 1), x ≠ 10 := by
            intro x hx
            rcases List.mem_cons.mp hx with h | h
            · subst h; exact hb
            · exact hnl1 x h
          have hexp := explode_append 10 (b :: rest.take (charsize b - 1))
            (rest.drop (charsize b - 1)) hpre l0' ls' heq
          rw [show (b :: rest.take (charsize b - 1)) ++ rest.drop (charsize b - 1) =
              b :: rest by
            rw [List.cons_append, List.take_append_drop]] at hexp
          rw [hexp] at hex
          injection hex with hex1 hex2
          subst hex2
          rw [show FC_GetWidthLoop f (b :: rest) w big =
              FC_GetWidthLoop f (rest.drop (charsize b - 1))
                (addGlyphWidth f
                  (FC_GetCodepointFromUTF8 (some (some (b :: rest))) true).1 w) big by
            rw [FC_GetWidthLoop]; rw [if_neg hb]]
          rw [ih (rest.drop (charsize b - 1)) (by
              simp only [List.length_drop]
              omega)
            _ big l0' ls' hnl2 heq]
          rw [← hex1]
          have hline : lineWidthSum f ((b :: rest.take (charsize b - 1)) ++ l0') w =
              lineWidthSum f l0'
                (addGlyphWidth f
                  (FC_GetCodepointFromUTF8 (some (some (b :: rest))) true).1 w) := by
            rw [List.cons_append]
            rw [lineWidthSum]
            rw [decode_agree b rest l0' hk]
            congr 1
            rw [List.drop_left' (by rw [List.length_take]; omega)]
          rw [hline]
        · -- the string ends inside the declared character length
          have htake : rest.take (charsize b - 1) = rest :=
            List.take_of_length_le (by omega)
          have hdrop : rest.drop (charsize b - 1) = [] :=
            List.drop_eq_nil_of_le (by omega)
          have hpre : ∀ x ∈ b :: rest, x ≠ 10 := by
            intro x hx
            rcases List.mem_cons.mp hx with h | h
            · subst h; exact hb
            · rw [htake] at hnl1
              exact hnl1 x h
          have hexp := explode_append 10 (b :: rest) [] hpre [] [] rfl
          rw [List.append_nil] at hexp
          rw [hexp] at hex
          injection hex with hex1 hex2
          subst hex2
          rw [show FC_GetWidthLoop f (b :: rest) w big =
              FC_GetWidthLoop f (rest.drop (charsize b - 1))
                (addGlyphWidth f
                  (FC_GetCodepointFromUTF8 (some (some (b :: rest))) true).1 w) big by
            rw [FC_GetWidthLoop]; rw [if_neg hb]]
          rw [hdrop]
          rw [← hex1]
          have hline : lineWidthSum f (b :: rest) w =
              addGlyphWidth f
                (FC_GetCodepointFromUTF8 (some (some (b :: rest))) true).1 w := by
            rw [lineWidthSum_cons, hdrop, lineWidthSum_nil]
          rw [hline]
          simp [FC_GetWidthLoop]

/-- Claim C9: for every well-formed string (no newline byte hidden inside a
multi-byte character), `FC_GetWidth` returns the maximum over its
newline-separated lines of the per-line sum of resolved glyph widths (with
the space-glyph fallback for failed lookups), not the total across lines. -/
theorem getWidth_is_max_of_line_sums (f : RenderFont) (bytes : List Nat)
    (hnl : noNLInChar bytes = true) :
    FC_GetWidth (some f) (some bytes) =
      ((FC_Explode 10 bytes).map fun l => lineWidthSum f l 0).foldl max 0 := by
  obtain ⟨l0, ls, heq⟩ : ∃ l0 ls, FC_Explode 10 bytes = l0 :: ls := by
    cases h : FC_Explode 10 bytes with
    | nil => exact absurd h (explode_ne_nil _ _)
    | cons a as => exact ⟨a, as, rfl⟩
  show FC_GetWidthLoop f bytes 0 0 = _
  rw [widthLoop_split f bytes.length bytes le_rfl 0 0 l0 ls hnl heq, heq]
  simp

/-- The glyph oracle used in concrete layout scenarios: every codepoint is
cached with a 10 by 10 rectangle (so every character, the space included,
measures 10 pixels wide). -/
def fontTen : RenderFont :=
  { glyph := fun _ => some { rect := { x := 0, y := 0, w := 10, h := 10 }, cache_level := 0 },
    height := 10,
    lineSpacing := 0,
    letterSpacing := 0,
    glyph_cache_count := 1 }

/-- Witness for C9: the two-line string "a\nbcd" measures max 10 30 = 30,
the width of its widest line, not the total 40. -/
theorem getWidth_is_max_of_line_sums_witness :
    noNLInChar [97, 10, 98, 99, 100] = true ∧
    FC_GetWidth (some fontTen) (some [97, 10, 98, 99, 100]) =
      ((FC_Explode 10 [97, 10, 98, 99, 100]).map fun l => lineWidthSum fontTen l 0).foldl
        max 0 :=
  ⟨by simp [noNLInChar, charsize],
    getWidth_is_max_of_line_sums fontTen [97, 10, 98, 99, 100]
      (by simp [noNLInChar, charsize])⟩

/-! ## Word wrap (src/SDL_FontCache.cpp:1642-1683, 1739-1789) -/

/-- `FC_ExplodeBreakingSpace` (src/SDL_FontCache.cpp:1642): split a line into
words on space/tab boundaries, capturing each separator byte in a parallel
list. At the terminator the word in progress is pushed together with the
one-byte string starting at the terminator, which is the empty string
(modelled as `[]`). Both returned lists always have the same positive
length. -/
def FC_ExplodeBreakingSpace : List Nat → List (List Nat) × List (List Nat)
  | [] => ([[]], [[]])
  | b :: rest =>
    if b = 32 ∨ b = 9 then
      ([] :: (FC_ExplodeBreakingSpace rest).1, [b] :: (FC_ExplodeBreakingSpace rest).2)
    else
      match FC_ExplodeBreakingSpace rest with
      | ([], ss) => ([[b]], ss)
      | (wd :: ws, ss) => ((b :: wd) :: ws, ss)

/-- The nonempty words of a line, as `FC_ExplodeBreakingSpace` produces them. -/
def wordsOf (line : List Nat) : List (List Nat) :=
  (FC_ExplodeBreakingSpace line).1.filter (fun w => ¬ w = [])

/-- A line containing at most a single unsplittable word (no space/tab
boundary splits it into two nonempty words). -/
def singleWord (line : List Nat) : Prop := (wordsOf line).length ≤ 1

instance (line : List Nat) : Decidable (singleWord line) := by
  unfold singleWord
  infer_instance

/-- The word-accumulation loop of `FC_GetBufferFitToColumn`
(src/SDL_FontCache.cpp:1759-1776): for each later word of the paragraph,
measure the current line with the word appended (without its separator); on
overflow flush the current line and restart from `word ++ separator`,
otherwise append `word ++ separator`; the final line is always flushed. -/
def fitColumnLoop (f : RenderFont) (width : Int) :
    List Nat → List (List Nat × List Nat) → List (List Nat)
  | line, [] => [line]
  | line, (word, space) :: rest =>
    if (FC_GetWidth (some f) (some (line ++ word)) : Int) > width then
      line :: fitColumnLoop f width (word ++ space) rest
    else
      fitColumnLoop f width (line ++ (word ++ space)) rest

/-- `FC_GetBufferFitToColumn` (src/SDL_FontCache.cpp:1739): explode the
buffer on newlines (keeping them at the start of later pieces for
`keep_newlines` callers); paragraphs that fit the column (or a non-positive
width) pass through unchanged, the rest are word-wrapped starting from
`first word ++ its separator` before any fit check. The `scale` parameter
is unused, as in the source. -/
def FC_GetBufferFitToColumn (f : RenderFont) (buffer : List Nat) (width : Int)
    (scale : Rat × Rat) (keep_newlines : Bool) : List (List Nat) :=
  (if keep_newlines then FC_ExplodeAndKeep 10 buffer else FC_Explode 10 buffer).flatMap
    fun line =>
      if width > 0 ∧ (FC_GetWidth (some f) (some line) : Int) > width then
        match FC_ExplodeBreakingSpace line with
        | (w0 :: ws, s0 :: ss) => fitColumnLoop f width (w0 ++ s0) (ws.zip ss)
        | _ => []
      else [line]

theorem explodeBS_cons_sep (b : Nat) (rest : List Nat) (hb : b = 32 ∨ b = 9) :
    FC_ExplodeBreakingSpace (b :: rest) =
      ([] :: (FC_ExplodeBreakingSpace rest).1, [b] :: (FC_ExplodeBreakingSpace rest).2) := by
  conv_lhs => unfold FC_ExplodeBreakingSpace
  rw [if_pos hb]

theorem explodeBS_cons_word (b : Nat) (rest : List Nat) (hb : ¬ (b = 32 ∨ b = 9))
    (w0 : List Nat) (ws : List (List Nat)) (ss : List (List Nat))
    (heq : FC_ExplodeBreakingSpace rest = (w0 :: ws, ss)) :
    FC_ExplodeBreakingSpace (b :: rest) = ((b :: w0) :: ws, ss) := by
  conv_lhs => unfold FC_ExplodeBreakingSpace
  rw [if_neg hb, heq]

theorem explodeBS_shape (l : List Nat) :
    ∃ w0 ws s0 ss, FC_ExplodeBreakingSpace l = (w0 :: ws, s0 :: ss) := by
  induction l with
  | nil => exact ⟨[], [], [], [], rfl⟩
  | cons b rest ih =>
    obtain ⟨w0, ws, s0, ss, heq⟩ := ih
    by_cases hb : b = 32 ∨ b = 9
    · refine ⟨[], w0 :: ws, [b], s0 :: ss, ?_⟩
      rw [explodeBS_cons_sep b rest hb, heq]
    · exact ⟨b :: w0, ws, s0, ss, explodeBS_cons_word b rest hb w0 ws (s0 :: ss) heq⟩

theorem explodeBS_words_no_sep (l : List Nat) :
    ∀ w ∈ (FC_ExplodeBreakingSpace l).1, ∀ x ∈ w, ¬ (x = 32 ∨ x = 9) := by
  induction l with
  | nil =>
    intro w hw x hx
    simp only [FC_ExplodeBreakingSpace, List.mem_singleton] at hw
    subst hw
    simp at hx
  | cons b rest ih =>
    intro w hw x hx
    by_cases hb : b = 32 ∨ b = 9
    · rw [explodeBS_cons_sep b rest hb] at hw
      rcases List.mem_cons.mp hw with h | h
      · subst h; simp at hx
      · exact ih w h x hx
    · obtain ⟨w0, ws, s0, ss, heq⟩ := explodeBS_shape rest
      rw [explodeBS_cons_word b rest hb w0 ws (s0 :: ss) heq] at hw
      rcases List.mem_cons.mp hw with h | h
      · subst h
        rcases List.mem_cons.mp hx with h2 | h2
        · subst h2; exact hb
        · exact ih w0 (by rw [heq]; exact List.mem_cons_self _ _) x h2
      · exact ih w (by rw [heq]; exact List.mem_cons_of_mem _ h) x hx

theorem explodeBS_spaces_shape (l : List Nat) :
    ∀ s ∈ (FC_ExplodeBreakingSpace l).2, s = [] ∨ s = [32] ∨ s = [9] := by
  induction l with
  | nil =>
    intro s hs
    simp only [FC_ExplodeBreakingSpace, List.mem_singleton] at hs
    subst hs
    exact Or.inl rfl
  | cons b rest ih =>
    intro s hs
    by_cases hb : b = 32 ∨ b = 9
    · rw [explodeBS_cons_sep b rest hb] at hs
      rcases List.mem_cons.mp hs with h | h
      · subst h
        rcases hb with h2 | h2
        · subst h2; exact Or.inr (Or.inl rfl)
        · subst h2; exact Or.inr (Or.inr rfl)
      · exact ih s h
    · obtain ⟨w0, ws, s0, ss, heq⟩ := explodeBS_shape rest
      rw [explodeBS_cons_word b rest hb w0 ws (s0 :: ss) heq] at hs
      exact ih s (by rw [heq]; exact hs)

theorem explodeBS_no_sep (w : List Nat) (hw : ∀ x ∈ w, ¬ (x = 32 ∨ x = 9)) :
    FC_ExplodeBreakingSpace w = ([w], [[]]) := by
  induction w with
  | nil => rfl
  | cons b rest ih =>
    have hb : ¬ (b = 32 ∨ b = 9) := hw b (List.mem_cons_self _ _)
    have ih' := ih (fun x hx => hw x (List.mem_cons_of_mem _ hx))
    exact explodeBS_cons_word b rest hb rest [] [[]] ih'

theorem explodeBS_word_sep (w : List Nat) (c : Nat) (hw : ∀ x ∈ w, ¬ (x = 32 ∨ x = 9))
    (hc : c = 32 ∨ c = 9) :
    FC_ExplodeBreakingSpace (w ++ [c]) = ([w, []], [[c], []]) := by
  induction w with
  | nil =>
    rw [List.nil_append, explodeBS_cons_sep c [] hc]
    rfl
  | cons b rest ih =>
    have hb : ¬ (b = 32 ∨ b = 9) := hw b (List.mem_cons_self _ _)
    have ih' := ih (fun x hx => hw x (List.mem_cons_of_mem _ hx))
    rw [List.cons_append]
    exact explodeBS_cons_word b (rest ++ [c]) hb rest [[]] [[c], []] ih'

theorem singleWord_word_sep (w s : List Nat) (hw : ∀ x ∈ w, ¬ (x = 32 ∨ x = 9))
    (hs : s = [] ∨ s = [32] ∨ s = [9]) : singleWord (w ++ s) := by
  unfold singleWord wordsOf
  rcases hs with h | h | h
  · subst h
    rw [List.append_nil, explodeBS_no_sep w hw]
    cases w <;> simp
  · subst h
    rw [explodeBS_word_sep w 32 hw (Or.inl rfl)]
    cases w <;> simp
  · subst h
    rw [explodeBS_word_sep w 9 hw (Or.inr rfl)]
    cases w <;> simp

/-- The three ways a produced line can relate to the column width: it fits;
or it is a flushed line that fits after dropping its one trailing separator
byte; or it contains at most one word (exempt from any fit guarantee). -/
def GoodLine (f : RenderFont) (width : Int) (L : List Nat) : Prop :=
  ((FC_GetWidth (some f) (some L) : Int) ≤ width) ∨
  (∃ M s, L = M ++ [s] ∧ (s = 32 ∨ s = 9) ∧
    (FC_GetWidth (some f) (some M) : Int) ≤ width) ∨
  singleWord L

theorem fitLoop_good (f : RenderFont) (width : Int) :
    ∀ (pairs : List (List Nat × List Nat)) (line : List Nat),
      GoodLine f width line →
      (∀ p ∈ pairs, (∀ x ∈ p.1, ¬ (x = 32 ∨ x = 9)) ∧
        (p.2 = [] ∨ p.2 = [32] ∨ p.2 = [9])) →
      ∀ L ∈ fitColumnLoop f width line pairs, GoodLine f width L := by
  intro pairs
  induction pairs with
  | nil =>
    intro line hline _ L hL
    simp only [fitColumnLoop, List.mem_singleton] at hL
    subst hL
    exact hline
  | cons p rest ih =>
    obtain ⟨word, space⟩ := p
    intro line hline hp L hL
    have hpw := (hp (word, space) (List.mem_cons_self _ _)).1
    have hps := (hp (word, space) (List.mem_cons_self _ _)).2
    have hrest : ∀ q ∈ rest, (∀ x ∈ q.1, ¬ (x = 32 ∨ x = 9)) ∧
        (q.2 = [] ∨ q.2 = [32] ∨ q.2 = [9]) :=
      fun q hq => hp q (List.mem_cons_of_mem _ hq)
    unfold fitColumnLoop at hL
    by_cases hover : (FC_GetWidth (some f) (some (line ++ word)) : Int) > width
    · rw [if_pos hover] at hL
      rcases List.mem_cons.mp hL with h | h
      · subst h; exact hline
      · exact ih (word ++ space)
          (Or.inr (Or.inr (singleWord_word_sep word space hpw hps))) hrest L h
    · rw [if_neg hover] at hL
      refine ih (line ++ (word ++ space)) ?_ hrest L hL
      rcases hps with h | h | h
      · subst h
        rw [List.append_nil]
        exact Or.inl (by omega)
      · subst h
        exact Or.inr (Or.inl ⟨line ++ word, 32, by rw [List.append_assoc], Or.inl rfl,
          by omega⟩)
      · subst h
        exact Or.inr (Or.inl ⟨line ++ word, 9, by rw [List.append_assoc], Or.inr rfl,
          by omega⟩)

theorem fitLoop_first (f : RenderFont) (width : Int) :
    ∀ (pairs : List (List Nat × List Nat)) (line : List Nat),
      ∃ t rest, fitColumnLoop f width line pairs = (line ++ t) :: rest := by
  intro pairs
  induction pairs with
  | nil =>
    intro line
    exact ⟨[], [], by rw [List.append_nil]; rfl⟩
  | cons p rest ih =>
    obtain ⟨word, space⟩ := p
    intro line
    unfold fitColumnLoop
    by_cases hover : (FC_GetWidth (some f) (some (line ++ word)) : Int) > width
    · rw [if_pos hover]
      exact ⟨[], fitColumnLoop f width (word ++ space) rest, by rw [List.append_nil]⟩
    · rw [if_neg hover]
      obtain ⟨t, rest', heq⟩ := ih (line ++ (word ++ space))
      exact ⟨word ++ space ++ t, rest', by rw [heq, List.append_assoc, List.append_assoc]⟩

/-- Claim C3, amended: for every positive column width W, every line produced
by `FC_GetBufferFitToColumn` either measures at most W, or is a flushed line
that measures at most W after dropping its single trailing separator byte
(the separator retained on the flushed line can push it past W), or contains
at most one unsplittable word; and for a wrapped paragraph the first word
plus its captured separator is placed at the start of the first produced
line before any fit check runs. -/
theorem wrap_lines_good :
    (∀ (f : RenderFont) (buffer : List Nat) (width : Int) (scale : Rat × Rat)
      (keep_newlines : Bool), 0 < width →
      ∀ L ∈ FC_GetBufferFitToColumn f buffer width scale keep_newlines,
        GoodLine f width L) ∧
    (∀ (f : RenderFont) (width : Int) (p : List Nat) (w0 : List Nat) (ws : List (List Nat))
      (s0 : List Nat) (ss : List (List Nat)),
      FC_ExplodeBreakingSpace p = (w0 :: ws, s0 :: ss) →
      ∃ t rest, fitColumnLoop f width (w0 ++ s0) (ws.zip ss) = ((w0 ++ s0) ++ t) :: rest) := by
  constructor
  · intro f buffer width scale keep_newlines hwpos L hL
    unfold FC_GetBufferFitToColumn at hL
    obtain ⟨line, hline, hLb⟩ := List.mem_flatMap.mp hL
    by_cases hcond : width > 0 ∧ (FC_GetWidth (some f) (some line) : Int) > width
    · rw [if_pos hcond] at hLb
      obtain ⟨w0, ws, s0, ss, heq⟩ := explodeBS_shape line
      rw [heq] at hLb
      have hw0 : ∀ x ∈ w0, ¬ (x = 32 ∨ x = 9) :=
        explodeBS_words_no_sep line w0 (by rw [heq]; exact List.mem_cons_self _ _)
      have hs0 : s0 = [] ∨ s0 = [32] ∨ s0 = [9] :=
        explodeBS_spaces_shape line s0 (by rw [heq]; exact List.mem_cons_self _ _)
      refine fitLoop_good f width (ws.zip ss) (w0 ++ s0)
        (Or.inr (Or.inr (singleWord_word_sep w0 s0 hw0 hs0))) ?_ L hLb
      intro q hq
      obtain ⟨hq1, hq2⟩ := List.of_mem_zip hq
      constructor
      · exact explodeBS_words_no_sep line q.1
          (by rw [heq]; exact List.mem_cons_of_mem _ hq1)
      · exact explodeBS_spaces_shape line q.2
          (by rw [heq]; exact List.mem_cons_of_mem _ hq2)
    · rw [if_neg hcond] at hLb
      simp only [List.mem_singleton] at hLb
      subst hLb
      rcases not_and_or.mp hcond with h | h
      · omega
      · exact Or.inl (by omega)
  · intro f width p w0 ws s0 ss heq
    exact fitLoop_first f width (ws.zip ss) (w0 ++ s0)

/-- Claim C3 as stated is false: wrapping the 8-byte paragraph "ab cd ef"
(every glyph 10 px wide) at column width 50 produces the flushed line
"ab cd " of measured width 60 > 50, and that line contains two words, so it
is not exempt as a single unsplittable word. -/
theorem wrap_fit_counterexample :
    FC_GetBufferFitToColumn fontTen [97, 98, 32, 99, 100, 32, 101, 102] 50 (1, 1) false =
      [[97, 98, 32, 99, 100, 32], [101, 102]] ∧
    FC_GetWidth (some fontTen) (some [97, 98, 32, 99, 100, 32]) = 60 ∧
    ¬ singleWord [97, 98, 32, 99, 100, 32] ∧
    ¬ (∀ L ∈ FC_GetBufferFitToColumn fontTen [97, 98, 32, 99, 100, 32, 101, 102]
          50 (1, 1) false,
        singleWord L ∨ (FC_GetWidth (some fontTen) (some L) : Int) ≤ 50) := by
  have h1 : FC_GetBufferFitToColumn fontTen [97, 98, 32, 99, 100, 32, 101, 102]
      50 (1, 1) false = [[97, 98, 32, 99, 100, 32], [101, 102]] := by
    simp [FC_GetBufferFitToColumn, fitColumnLoop, FC_ExplodeBreakingSpace, FC_Explode,
      FC_GetWidth, FC_GetWidthLoop, addGlyphWidth, resolvedGlyph, fontTen, charsize]
  have h2 : FC_GetWidth (some fontTen) (some [97, 98, 32, 99, 100, 32]) = 60 := by
    simp [FC_GetWidth, FC_GetWidthLoop, addGlyphWidth, resolvedGlyph, fontTen, charsize]
  refine ⟨h1, h2, by decide, ?_⟩
  intro hall
  have := hall [97, 98, 32, 99, 100, 32] (by rw [h1]; exact List.mem_cons_self _ _)
  rcases this with h | h
  · exact absurd h (by decide)
  · rw [h2] at h
    omega

/-- Witness for the amended C3: the wrapped "ab cd ef" scenario at width 50;
every produced line satisfies the amended guarantee. -/
theorem wrap_lines_good_witness :
    (0 : Int) < 50 ∧
    (∀ L ∈ FC_GetBufferFitToColumn fontTen [97, 98, 32, 99, 100, 32, 101, 102]
        50 (1, 1) false,
      GoodLine fontTen 50 L) :=
  ⟨by decide,
    wrap_lines_good.1 fontTen [97, 98, 32, 99, 100, 32, 101, 102] 50 (1, 1) false
      (by decide)⟩

/-! ## Rendering and the dirty rectangle (src/SDL_FontCache.cpp:492-503, 1437-1529) -/

/-- `FC_Scale`: two `float` scale factors, modelled as exact rationals. -/
structure FC_Scale where
  x : Rat
  y : Rat

/-- C `float` to `int` conversion: truncation toward zero. -/
def cTrunc (q : Rat) : Int := if 0 ≤ q then q.floor else q.ceil

/-- The render-callback interface (`fc_render_callback`,
src/SDL_FontCache.cpp:583): given the source atlas texture (identified by
its cache-level index), the glyph source rectangle, the destination position
(already narrowed to `int`, as the callback's `int x, int y` parameters
force), and the scale factors, it draws and returns the destination
rectangle. -/
def RenderCallback : Type := Int → SDLRect → Int → Int → Rat → Rat → SDLRect

/-- `SDL_RectUnion` (src/SDL_FontCache.cpp:492): the bounding box of two
rectangles, with the width/height clamped to be nonnegative. -/
def SDL_RectUnion (A B : SDLRect) : SDLRect :=
  { x := min A.x B.x,
    y := min A.y B.y,
    w := max 0 (max (A.x + A.w) (B.x + B.w) - min A.x B.x),
    h := max 0 (max (A.y + A.h) (B.y + B.h) - min A.y B.y) }

/-- One non-newline character of the `FC_RenderLeft` loop
(src/SDL_FontCache.cpp:1474-1500): look the codepoint up, falling back to
the space glyph; a space (original or fallback) only advances the x cursor;
a drawn glyph calls the render callback, seeds or unions the dirty
rectangle, records the destination rectangle, and advances the x cursor.
Returns the new `destX`, the new dirty rectangle, and the draw trace. -/
def charStep (cb : RenderCallback) (f : RenderFont) (destLetterSpacing : Rat)
    (scale : FC_Scale) (codepoint : Nat) (destX destY : Rat) (dirtyRect : SDLRect)
    (trace : List SDLRect) : Rat × SDLRect × List SDLRect :=
  match f.glyph codepoint with
  | none =>
    match f.glyph 32 with
    | none => (destX, dirtyRect, trace)
    | some glyph => (destX + glyph.rect.w * scale.x + destLetterSpacing, dirtyRect, trace)
  | some glyph =>
    if codepoint = 32 then
      (destX + glyph.rect.w * scale.x + destLetterSpacing, dirtyRect, trace)
    else
      (destX + glyph.rect.w * scale.x + destLetterSpacing,
        if dirtyRect.w = 0 ∨ dirtyRect.h = 0 then
          cb glyph.cache_level glyph.rect (cTrunc destX) (cTrunc destY) scale.x scale.y
        else
          SDL_RectUnion dirtyRect
            (cb glyph.cache_level glyph.rect (cTrunc destX) (cTrunc destY) scale.x scale.y),
        trace ++
          [cb glyph.cache_level glyph.rect (cTrunc destX) (cTrunc destY) scale.x scale.y])

/-- The character loop of `FC_RenderLeft` (src/SDL_FontCache.cpp:1465-1501):
a newline returns the x cursor to `newlineX` and advances the y cursor by
the scaled line height plus line spacing; any other byte is one decoded
character handled by `charStep`. The trace of callback-returned destination
rectangles is accumulated alongside the dirty rectangle. -/
def renderLoop (cb : RenderCallback) (f : RenderFont) (newlineX : Int)
    (destH destLineSpacing destLetterSpacing : Rat) (scale : FC_Scale) :
    List Nat → Rat → Rat → SDLRect → List SDLRect → SDLRect × List SDLRect
  | [], _, _, dirtyRect, trace => (dirtyRect, trace)
  | b :: rest, destX, destY, dirtyRect, trace =>
    if b = 10 then
      renderLoop cb f newlineX destH destLineSpacing destLetterSpacing scale rest
        (newlineX : Rat) (destY + destH + destLineSpacing) dirtyRect trace
    else
      match charStep cb f destLetterSpacing scale
          (FC_GetCodepointFromUTF8 (some (some (b :: rest))) true).1
          destX destY dirtyRect trace with
      | (destX', dirtyRect', trace') =>
        renderLoop cb f newlineX destH destLineSpacing destLetterSpacing scale
          (rest.drop (charsize b - 1)) destX' destY dirtyRect' trace'
  termination_by l => l.length
  decreasing_by
    · simp
    · simp only [List.length_drop, List.length_cons]
      omega

/-- `FC_RenderLeft` (src/SDL_FontCache.cpp:1437): null font, null text, an
empty glyph cache, or a null destination renderer return the zero-size seed
rectangle at `(x, y)`; otherwise run the character loop from `(x, y)` with
the scaled spacing parameters. Returns the dirty rectangle together with
the trace of individual glyph destination rectangles produced during the
call. -/
def FC_RenderLeft (cb : RenderCallback) (font : Option RenderFont) (dest : Bool)
    (x y : Int) (scale : FC_Scale) (text : Option (List Nat)) : SDLRect × List SDLRect :=
  match font with
  | none => ({ x := x, y := y, w := 0, h := 0 }, [])
  | some f =>
    match text with
    | none => ({ x := x, y := y, w := 0, h := 0 }, [])
    | some bytes =>
      if f.glyph_cache_count = 0 ∨ dest = false then
        ({ x := x, y := y, w := 0, h := 0 }, [])
      else
        renderLoop cb f x ((f.height : Rat) * scale.y) ((f.lineSpacing : Rat) * scale.y)
          ((f.letterSpacing : Rat) * scale.x) scale bytes (x : Rat) (y : Rat)
          { x := x, y := y, w := 0, h := 0 } []

/-- Rectangle `S` lies inside rectangle `R` (interval bounds in both axes). -/
def containsRect (R S : SDLRect) : Prop :=
  R.x ≤ S.x ∧ R.y ≤ S.y ∧ S.x + S.w ≤ R.x + R.w ∧ S.y + S.h ≤ R.y + R.h

theorem union_contains_left (A B : SDLRect) : containsRect (SDL_RectUnion A B) A := by
  unfold containsRect SDL_RectUnion
  dsimp only
  omega

theorem union_contains_right (A B : SDLRect) : containsRect (SDL_RectUnion A B) B := by
  unfold containsRect SDL_RectUnion
  dsimp only
  omega

theorem containsRect_trans (U D S : SDLRect) (h1 : containsRect U D) (h2 : containsRect D S) :
    containsRect U S := by
  unfold containsRect at *
  omega

theorem charStep_inv (cb : RenderCallback) (f : RenderFont) (dlt : Rat) (scale : FC_Scale)
    (cp : Nat) (destX destY : Rat) (dirty : SDLRect) (trace : List SDLRect)
    (h1 : ∀ r ∈ trace, 0 < r.w → 0 < r.h → containsRect dirty r)
    (h2 : (dirty.w = 0 ∨ dirty.h = 0) → ∀ r ∈ trace, ¬ (0 < r.w ∧ 0 < r.h)) :
    (∀ r ∈ (charStep cb f dlt scale cp destX destY dirty trace).2.2,
      0 < r.w → 0 < r.h →
      containsRect (charStep cb f dlt scale cp destX destY dirty trace).2.1 r) ∧
    (((charStep cb f dlt scale cp destX destY dirty trace).2.1.w = 0 ∨
        (charStep cb f dlt scale cp destX destY dirty trace).2.1.h = 0) →
      ∀ r ∈ (charStep cb f dlt scale cp destX destY dirty trace).2.2,
        ¬ (0 < r.w ∧ 0 < r.h)) := by
  unfold charStep
  cases hg : f.glyph cp with
  | none =>
    cases hs : f.glyph 32 with
    | none => exact ⟨h1, h2⟩
    | some glyph => exact ⟨h1, h2⟩
  | some glyph =>
    dsimp only
    by_cases hsp : cp = 32
    · rw [if_pos hsp]
      exact ⟨h1, h2⟩
    · rw [if_neg hsp]
      by_cases hdeg : dirty.w = 0 ∨ dirty.h = 0
      · rw [if_pos hdeg]
        dsimp only
        constructor
        · intro r hr hrw hrh
          rcases List.mem_append.mp hr with h | h
          · exact absurd ⟨hrw, hrh⟩ (h2 hdeg r h)
          · rw [List.mem_singleton] at h
            subst h
            unfold containsRect
            omega
        · intro hdeg2 r hr
          rcases List.mem_append.mp hr with h | h
          · exact h2 hdeg r h
          · rw [List.mem_singleton] at h
            subst h
            omega
      · rw [if_neg hdeg]
        dsimp only
        constructor
        · intro r hr hrw hrh
          rcases List.mem_append.mp hr with h | h
          · exact containsRect_trans _ _ _ (union_contains_left _ _) (h1 r h hrw hrh)
          · rw [List.mem_singleton] at h
            subst h
            exact union_contains_right _ _
        · intro hdeg2 r hr
          rintro ⟨hrw, hrh⟩
          rcases List.mem_append.mp hr with h | h
          · have hct := containsRect_trans _ _ _
              (union_contains_left dirty
                (cb glyph.cache_level glyph.rect (cTrunc destX) (cTrunc destY) scale.x scale.y))
              (h1 r h hrw hrh)
            unfold containsRect at hct
            omega
          · rw [List.mem_singleton] at h
            subst h
            have hcr := union_contains_right dirty
              (cb glyph.cache_level glyph.rect (cTrunc destX) (cTrunc destY) scale.x scale.y)
            unfold containsRect at hcr
            omega

theorem renderLoop_nil (cb : RenderCallback) (f : RenderFont) (nx : Int)
    (dh dls dlt : Rat) (scale : FC_Scale) (dX dY : Rat) (dirty : SDLRect)
    (trace : List SDLRect) :
    renderLoop cb f nx dh dls dlt scale [] dX dY dirty trace = (dirty, trace) := by
  rw [renderLoop]

theorem renderLoop_cons_nl (cb : RenderCallback) (f : RenderFont) (nx : Int)
    (dh dls dlt : Rat) (scale : FC_Scale) (rest : List Nat) (dX dY : Rat)
    (dirty : SDLRect) (trace : List SDLRect) :
    renderLoop cb f nx dh dls dlt scale (10 :: rest) dX dY dirty trace =
      renderLoop cb f nx dh dls dlt scale rest (nx : Rat) (dY + dh + dls) dirty trace := by
  rw [renderLoop]
  rw [if_pos rfl]

theorem renderLoop_cons (cb : RenderCallback) (f : RenderFont) (nx : Int)
    (dh dls dlt : Rat) (scale : FC_Scale) (b : Nat) (rest : List Nat) (dX dY : Rat)
    (dirty : SDLRect) (trace : List SDLRect) (hb : ¬ b = 10) :
    renderLoop cb f nx dh dls dlt scale (b :: rest) dX dY dirty trace =
      renderLoop cb f nx dh dls dlt scale (rest.drop (charsize b - 1))
        (charStep cb f dlt scale
          (FC_GetCodepointFromUTF8 (some (some (b :: rest))) true).1 dX dY dirty trace).1
        dY
        (charStep cb f dlt scale
          (FC_GetCodepointFromUTF8 (some (some (b :: rest))) true).1 dX dY dirty trace).2.1
        (charStep cb f dlt scale
          (FC_GetCodepointFromUTF8 (some (some (b :: rest))) true).1 dX dY dirty trace).2.2 := by
  rw [renderLoop]
  rw [if_neg hb]

theorem renderLoop_inv (cb : RenderCallback) (f : RenderFont) (nx : Int)
    (dh dls dlt : Rat) (scale : FC_Scale) :
    ∀ (n : Nat) (bytes : List Nat), bytes.length ≤ n →
    ∀ (dX dY : Rat) (dirty : SDLRect) (trace : List SDLRect),
      (∀ r ∈ trace, 0 < r.w → 0 < r.h → containsRect dirty r) →
      ((dirty.w = 0 ∨ dirty.h = 0) → ∀ r ∈ trace, ¬ (0 < r.w ∧ 0 < r.h)) →
      ∀ r ∈ (renderLoop cb f nx dh dls dlt scale bytes dX dY dirty trace).2,
        0 < r.w → 0 < r.h →
        containsRect (renderLoop cb f nx dh dls dlt scale bytes dX dY dirty trace).1 r := by
  intro n
  induction n with
  | zero =>
    intro bytes hlen dX dY dirty trace h1 h2
    have hb : bytes = [] := List.length_eq_zero.mp (by omega)
    subst hb
    rw [renderLoop_nil]
    exact h1
  | succ n ih =>
    intro bytes hlen dX dY dirty trace h1 h2
    cases bytes with
    | nil =>
      rw [renderLoop_nil]
      exact h1
    | cons b rest =>
      have hrest : rest.length ≤ n := by
        simp only [List.length_cons] at hlen
        omega
      by_cases hb : b = 10
      · subst hb
        rw [renderLoop_cons_nl]
        exact ih rest hrest _ _ dirty trace h1 h2
      · rw [renderLoop_cons cb f nx dh dls dlt scale b rest dX dY dirty trace hb]
        have hinv := charStep_inv cb f dlt scale
          (FC_GetCodepointFromUTF8 (some (some (b :: rest))) true).1 dX dY dirty trace h1 h2
        exact ih (rest.drop (charsize b - 1))
          (by simp only [List.length_drop]; omega) _ _ _ _ hinv.1 hinv.2

/-- Claim C6: the dirty rectangle returned by `FC_RenderLeft` — the union of
the individual glyph destination rectangles, seeded by the first draw with
nonzero size — contains every individual glyph destination rectangle of
positive size produced during the call, for every render callback, font,
position, scale and text. -/
theorem renderLeft_dirty_contains (cb : RenderCallback) (font : Option RenderFont)
    (dest : Bool) (x y : Int) (scale : FC_Scale) (text : Option (List Nat)) :
    ∀ r ∈ (FC_RenderLeft cb font dest x y scale text).2,
      0 < r.w → 0 < r.h →
      containsRect (FC_RenderLeft cb font dest x y scale text).1 r := by
  intro r hr hrw hrh
  unfold FC_RenderLeft at hr ⊢
  cases font with
  | none => simp at hr
  | some f =>
    cases text with
    | none => simp at hr
    | some bytes =>
      dsimp only at hr ⊢
      by_cases hc : f.glyph_cache_count = 0 ∨ dest = false
      · rw [if_pos hc] at hr
        simp at hr
      · rw [if_neg hc] at hr ⊢
        exact renderLoop_inv cb f x ((f.height : Rat) * scale.y)
          ((f.lineSpacing : Rat) * scale.y) ((f.letterSpacing : Rat) * scale.x) scale
          bytes.length bytes le_rfl (x : Rat) (y : Rat)
          { x := x, y := y, w := 0, h := 0 } []
          (by intro r hr; simp at hr)
          (by intro hd r hr; simp at hr)
          r hr hrw hrh

/-- A concrete render callback for witnesses: draws at a fixed position with
the source rectangle's size. -/
def cbTest : RenderCallback :=
  fun _ src _ _ _ _ => { x := 2, y := 3, w := src.w, h := src.h }

/-- A font caching only the letter A, with a 5 by 7 glyph. -/
def fontA : RenderFont :=
  { glyph := fun cp =>
      if cp = 65 then some { rect := { x := 0, y := 0, w := 5, h := 7 }, cache_level := 0 }
      else none,
    height := 10,
    lineSpacing := 0,
    letterSpacing := 0,
    glyph_cache_count := 1 }

/-- Witness for C6: rendering "A" with `cbTest` produces the destination
rectangle (2, 3, 5, 7), which the returned dirty rectangle contains. -/
theorem renderLeft_dirty_contains_witness :
    ({ x := 2, y := 3, w := 5, h := 7 } : SDLRect) ∈
      (FC_RenderLeft cbTest (some fontA) true 0 0 ⟨1, 1⟩ (some [65])).2 ∧
    (0 : Int) < 5 ∧ (0 : Int) < 7 ∧
    containsRect (FC_RenderLeft cbTest (some fontA) true 0 0 ⟨1, 1⟩ (some [65])).1
      { x := 2, y := 3, w := 5, h := 7 } :=
  ⟨by simp [FC_RenderLeft, renderLoop, charStep, fontA, cbTest, charsize,
      FC_GetCodepointFromUTF8, byteAt],
    by decide, by decide,
    renderLeft_dirty_contains cbTest (some fontA) true 0 0 ⟨1, 1⟩ (some [65])
      { x := 2, y := 3, w := 5, h := 7 }
      (by simp [FC_RenderLeft, renderLoop, charStep, fontA, cbTest, charsize,
        FC_GetCodepointFromUTF8, byteAt])
      (by decide) (by decide)⟩

/-! ## Public draw and measurement entry points (src/SDL_FontCache.cpp:1519-1529, 2236-2242, 2348-2370) -/

/-- `FC_Draw` (src/SDL_FontCache.cpp:1519): null text or null font return a
zero-size rectangle at the given point; otherwise the formatted text is
rendered left-aligned at scale (1, 1) and the dirty rectangle returned.
(`set_color_for_all_caches` only touches external texture color state and
is omitted.) -/
def FC_Draw (cb : RenderCallback) (font : Option RenderFont) (dest : Bool) (x y : Int)
    (text : Option (List Nat)) : SDLRect :=
  match text, font with
  | none, _ => { x := x, y := y, w := 0, h := 0 }
  | _, none => { x := x, y := y, w := 0, h := 0 }
  | some t, some f => (FC_RenderLeft cb (some f) dest x y ⟨1, 1⟩ (some t)).1

/-- `FC_GetLineHeight` (src/SDL_FontCache.cpp:2236): 0 for a null font. -/
def FC_GetLineHeight (font : Option RenderFont) : Nat :=
  match font with
  | none => 0
  | some f => f.height

/-- `FC_GetColumnHeight` (src/SDL_FontCache.cpp:2348): 0 for a null font;
the single-line height for null text or a zero column width; otherwise the
line height times the number of wrapped lines (`Uint16` return). -/
def FC_GetColumnHeight (font : Option RenderFont) (width : Nat) (text : Option (List Nat)) :
    Nat :=
  match font with
  | none => 0
  | some f =>
    match text with
    | none => f.height
    | some bytes =>
      if width = 0 then f.height
      else
        ((FC_GetBufferFitToColumn f bytes (width : Int) (1, 1) false).length *
          FC_GetLineHeight (some f)) % 65536

/-- A font whose line height is 20 pixels. -/
def fontTwenty : RenderFont :=
  { glyph := fun _ => some { rect := { x := 0, y := 0, w := 10, h := 10 }, cache_level := 0 },
    height := 20,
    lineSpacing := 0,
    letterSpacing := 0,
    glyph_cache_count := 1 }

/-- Claim C7 as stated is false for `FC_GetColumnHeight`: with a zero column
width it returns the font's single-line height (here 20), not an empty/zero
result. -/
theorem columnHeight_zero_width_counterexample :
    FC_GetColumnHeight (some fontTwenty) 0 (some [97]) = 20 ∧ (20 : Nat) ≠ 0 :=
  ⟨rfl, by decide⟩

/-- Claim C7, amended: invalid inputs give defined results — `FC_Draw` with
a null font or null text returns the zero-size rectangle at the given
point, `FC_GetWidth` with a null font or null text returns 0, and
`FC_GetColumnHeight` returns 0 for a null font but returns the font's
single-line height (not zero) for a zero column width or null text. -/
theorem invalid_inputs_defined :
    (∀ (cb : RenderCallback) (dest : Bool) (x y : Int) (text : Option (List Nat)),
      FC_Draw cb none dest x y text = { x := x, y := y, w := 0, h := 0 }) ∧
    (∀ (cb : RenderCallback) (font : Option RenderFont) (dest : Bool) (x y : Int),
      FC_Draw cb font dest x y none = { x := x, y := y, w := 0, h := 0 }) ∧
    (∀ text : Option (List Nat), FC_GetWidth none text = 0) ∧
    (∀ font : Option RenderFont, FC_GetWidth font none = 0) ∧
    (∀ (width : Nat) (text : Option (List Nat)), FC_GetColumnHeight none width text = 0) ∧
    (∀ (f : RenderFont) (text : Option (List Nat)),
      FC_GetColumnHeight (some f) 0 text = f.height) ∧
    (∀ (f : RenderFont) (width : Nat), FC_GetColumnHeight (some f) width none = f.height) := by
  refine ⟨?_, ?_, ?_, ?_, ?_, ?_, ?_⟩
  · intro cb dest x y text
    cases text <;> rfl
  · intro cb font dest x y
    cases font <;> rfl
  · intro text
    cases text <;> rfl
  · intro font
    cases font <;> rfl
  · intro width text
    rfl
  · intro f text
    cases text with
    | none => rfl
    | some bytes => simp [FC_GetColumnHeight]
  · intro f width
    rfl

/-! ## Glyph provider (src/SDL_FontCache.cpp:773-827, 958-998, 1370-1426) -/

/-- External collaborators of `FC_GetGlyphData`: the TTF rasterizer
(`TTF_RenderUTF8_Blended`, returning a surface's pixel width and height or
failing) and the renderer's texture creation used by `FC_GrowGlyphCache`
(success or failure). -/
structure ProviderEnv where
  raster : Nat → Option (Nat × Nat)
  create_texture_ok : Bool

/-- `FC_GetGlyphCacheLevel` (src/SDL_FontCache.cpp:958): bounds-check the
level index, then read the texture array. (The C bounds check admits the
index one past the last created level, where the array holds no initialized
texture; the list read models that slot as absent.) -/
def FC_GetGlyphCacheLevel (font : FontState) (cache_level : Int) : Option (Nat × Nat) :=
  if cache_level < 0 ∨ cache_level > font.glyph_cache_count then none
  else font.glyph_cache[cache_level.toNat]?

/-- `FC_SetGlyphCacheLevel` (src/SDL_FontCache.cpp:966): levels must be
added sequentially; installing at index = count appends a new level and
bumps the count (the C array growth is invisible in the list model), any
other admissible index overwrites in place (an out-of-range write is a
no-op in the list model). -/
def FC_SetGlyphCacheLevel (font : FontState) (cache_level : Int) (tex : Nat × Nat) :
    Bool × FontState :=
  if cache_level < 0 then (false, font)
  else if cache_level > font.glyph_cache_count + 1 then (false, font)
  else if cache_level = font.glyph_cache_count then
    (true,
      { font with
          glyph_cache_count := font.glyph_cache_count + 1,
          glyph_cache := font.glyph_cache ++ [tex] })
  else
    (true, { font with glyph_cache := font.glyph_cache.set cache_level.toNat tex })

/-- `FC_GrowGlyphCache` (src/SDL_FontCache.cpp:773): create a fresh
`height*12` square texture and install it as the next cache level; texture
creation failure (or a rejected install) reports failure without touching
the level list. The render-target clearing and color setup only touch
external renderer state and are omitted. -/
def FC_GrowGlyphCache (env : ProviderEnv) (font : FontState) : Bool × FontState :=
  if env.create_texture_ok then
    if (FC_SetGlyphCacheLevel font font.glyph_cache_count
        (font.height * 12, font.height * 12)).1 then
      (true, (FC_SetGlyphCacheLevel font font.glyph_cache_count
        (font.height * 12, font.height * 12)).2)
    else
      (false, (FC_SetGlyphCacheLevel font font.glyph_cache_count
        (font.height * 12, font.height * 12)).2)
  else (false, font)

/-- The outcome of one `FC_GetGlyphData` call: the returned `Uint8`, the
glyph data written to `*result`, the updated font state, and how many
`FC_PackGlyphData` and `FC_GrowGlyphCache` calls were made. -/
structure GlyphDataOutcome where
  ok : Bool
  result : Option FC_GlyphData
  font : FontState
  packAttempts : Nat
  growCalls : Nat
deriving Repr, DecidableEq

/-- `FC_GetGlyphData` (src/SDL_FontCache.cpp:1370): return the stored data
when the codepoint is mapped; otherwise require a TTF source, a valid
current cache-level texture (whose queried size gives the packing bounds),
and a successful rasterization, then pack; on packing failure grow the
cache once (ignoring the grow result, as the C code does) and retry the
pack exactly once, failing if the retry fails. The successful path's
`FC_AddGlyphToCache` blit only touches external render state and is
omitted. -/
def FC_GetGlyphData (env : ProviderEnv) (fc_tab_width : Nat) (font : FontState)
    (codepoint : Nat) : GlyphDataOutcome :=
  match FC_MapFind font.glyphs codepoint with
  | some e =>
    { ok := true, result := some e, font := font, packAttempts := 0, growCalls := 0 }
  | none =>
    if font.ttf_source = false then
      { ok := false, result := none, font := font, packAttempts := 0, growCalls := 0 }
    else
      match FC_GetGlyphCacheLevel font font.last_glyph.cache_level with
      | none =>
        { ok := false, result := none, font := font, packAttempts := 0, growCalls := 0 }
      | some (w, h) =>
        match env.raster codepoint with
        | none =>
          { ok := false, result := none, font := font, packAttempts := 0, growCalls := 0 }
        | some (sw, _sh) =>
          match FC_PackGlyphData font fc_tab_width codepoint (sw % 65536)
              (w % 65536) (h % 65536) with
          | (some e, font1) =>
            { ok := true, result := some e, font := font1, packAttempts := 1, growCalls := 0 }
          | (none, font1) =>
            match FC_PackGlyphData (FC_GrowGlyphCache env font1).2 fc_tab_width codepoint
                (sw % 65536) (w % 65536) (h % 65536) with
            | (none, font3) =>
              { ok := false, result := none, font := font3, packAttempts := 2, growCalls := 1 }
            | (some e, font3) =>
              { ok := true, result := some e, font := font3, packAttempts := 2, growCalls := 1 }

theorem pack_preserves_count (font : FontState) (tw cp w mw mh : Nat) :
    (FC_PackGlyphData font tw cp w mw mh).2.glyph_cache_count = font.glyph_cache_count := by
  unfold FC_PackGlyphData packPlace
  split_ifs <;> rfl

/-- Claim C4: `FC_GetGlyphData` returns the stored data for an
already-cached codepoint; otherwise, when the initial packing attempt
fails, it grows the cache exactly once (adding exactly one level when
texture creation succeeds) and retries packing exactly once more, reporting
failure (returning 0) if the retry fails; a rasterization failure also
reports failure. -/
theorem getGlyphData_paths :
    (∀ (env : ProviderEnv) (tw : Nat) (font : FontState) (cp : Nat) (e : FC_GlyphData),
      FC_MapFind font.glyphs cp = some e →
      FC_GetGlyphData env tw font cp =
        { ok := true, result := some e, font := font, packAttempts := 0, growCalls := 0 }) ∧
    (∀ (env : ProviderEnv) (tw : Nat) (font : FontState) (cp : Nat) (w h : Nat),
      FC_MapFind font.glyphs cp = none →
      font.ttf_source = true →
      FC_GetGlyphCacheLevel font font.last_glyph.cache_level = some (w, h) →
      env.raster cp = none →
      FC_GetGlyphData env tw font cp =
        { ok := false, result := none, font := font, packAttempts := 0, growCalls := 0 }) ∧
    (∀ (env : ProviderEnv) (tw : Nat) (font : FontState) (cp : Nat) (w h sw sh : Nat),
      FC_MapFind font.glyphs cp = none →
      font.ttf_source = true →
      FC_GetGlyphCacheLevel font font.last_glyph.cache_level = some (w, h) →
      env.raster cp = some (sw, sh) →
      (FC_PackGlyphData font tw cp (sw % 65536) (w % 65536) (h % 65536)).1 = none →
      (FC_GetGlyphData env tw font cp).packAttempts = 2 ∧
      (FC_GetGlyphData env tw font cp).growCalls = 1 ∧
      (env.create_texture_ok = true → 0 ≤ font.glyph_cache_count →
        (FC_GetGlyphData env tw font cp).font.glyph_cache_count =
          font.glyph_cache_count + 1) ∧
      ((FC_PackGlyphData
            (FC_GrowGlyphCache env
              (FC_PackGlyphData font tw cp (sw % 65536) (w % 65536) (h % 65536)).2).2
            tw cp (sw % 65536) (w % 65536) (h % 65536)).1 = none →
        (FC_GetGlyphData env tw font cp).ok = false ∧
        (FC_GetGlyphData env tw font cp).result = none)) := by
  refine ⟨?_, ?_, ?_⟩
  · intro env tw font cp e hfind
    unfold FC_GetGlyphData
    rw [hfind]
  · intro env tw font cp w h hfind httf hcache hraster
    unfold FC_GetGlyphData
    rw [hfind, httf, hcache, hraster]
    rfl
  · intro env tw font cp w h sw sh hfind httf hcache hraster hpackfail
    have hmain : ∀ prop : GlyphDataOutcome → Prop,
        (∀ font3,
          (FC_PackGlyphData (FC_GrowGlyphCache env
              (FC_PackGlyphData font tw cp (sw % 65536) (w % 65536) (h % 65536)).2).2
            tw cp (sw % 65536) (w % 65536) (h % 65536)).1 = none →
          (FC_PackGlyphData (FC_GrowGlyphCache env
              (FC_PackGlyphData font tw cp (sw % 65536) (w % 65536) (h % 65536)).2).2
            tw cp (sw % 65536) (w % 65536) (h % 65536)).2 = font3 →
          prop { ok := false, result := none, font := font3, packAttempts := 2,
                 growCalls := 1 }) →
        (∀ e font3,
          (FC_PackGlyphData (FC_GrowGlyphCache env
              (FC_PackGlyphData font tw cp (sw % 65536) (w % 65536) (h % 65536)).2).2
            tw cp (sw % 65536) (w % 65536) (h % 65536)).1 = some e →
          (FC_PackGlyphData (FC_GrowGlyphCache env
              (FC_PackGlyphData font tw cp (sw % 65536) (w % 65536) (h % 65536)).2).2
            tw cp (sw % 65536) (w % 65536) (h % 65536)).2 = font3 →
          prop { ok := true, result := some e, font := font3, packAttempts := 2,
                 growCalls := 1 }) →
        prop (FC_GetGlyphData env tw font cp) := by
      intro prop hnone hsome
      unfold FC_GetGlyphData
      rw [hfind, httf]
      rw [if_neg (by simp)]
      rw [hcache, hraster]
      dsimp only
      rcases h1 : FC_PackGlyphData font tw cp (sw % 65536) (w % 65536) (h % 65536)
        with ⟨e1, font1⟩
      have he1 : e1 = none := by
        rw [h1] at hpackfail
        exact hpackfail
      subst he1
      dsimp only
      have hfont1 : (FC_PackGlyphData font tw cp (sw % 65536) (w % 65536) (h % 65536)).2 =
          font1 := by
        rw [h1]
      rcases h2 : FC_PackGlyphData (FC_GrowGlyphCache env font1).2 tw cp (sw % 65536)
        (w % 65536) (h % 65536) with ⟨e2, font3⟩
      cases e2 with
      | none =>
        exact hnone font3 (by rw [hfont1, h2]) (by rw [hfont1, h2])
      | some e =>
        exact hsome e font3 (by rw [hfont1, h2]) (by rw [hfont1, h2])
    refine ⟨?_, ?_, ?_, ?_⟩
    · exact hmain (fun o => o.packAttempts = 2) (fun _ _ _ => rfl) (fun _ _ _ _ => rfl)
    · exact hmain (fun o => o.growCalls = 1) (fun _ _ _ => rfl) (fun _ _ _ _ => rfl)
    · intro hcreate hcount
      have hgrow : ∀ f1 : FontState, f1.glyph_cache_count = font.glyph_cache_count →
          (FC_GrowGlyphCache env f1).2.glyph_cache_count = font.glyph_cache_count + 1 := by
        intro f1 hf1
        have hset : FC_SetGlyphCacheLevel f1 f1.glyph_cache_count
            (f1.height * 12, f1.height * 12) =
            (true,
              { f1 with
                  glyph_cache_count := f1.glyph_cache_count + 1,
                  glyph_cache := f1.glyph_cache ++ [(f1.height * 12, f1.height * 12)] }) := by
          unfold FC_SetGlyphCacheLevel
          rw [if_neg (by omega), if_neg (by omega), if_pos rfl]
        unfold FC_GrowGlyphCache
        rw [if_pos hcreate, hset]
        dsimp only
        rw [if_pos rfl]
        dsimp only
        omega
      refine hmain (fun o => o.font.glyph_cache_count = font.glyph_cache_count + 1)
        ?_ ?_
      · intro font3 _ heq
        show font3.glyph_cache_count = _
        rw [← heq, pack_preserves_count, hgrow _ (by rw [pack_preserves_count])]
      · intro e font3 _ heq
        show font3.glyph_cache_count = _
        rw [← heq, pack_preserves_count, hgrow _ (by rw [pack_preserves_count])]
    · intro hretry
      constructor
      · refine hmain (fun o => o.ok = false) (fun _ _ _ => rfl) ?_
        intro e font3 he _
        rw [he] at hretry
        exact absurd hretry (by simp)
      · refine hmain (fun o => o.result = none) (fun _ _ _ => rfl) ?_
        intro e font3 he _
        rw [he] at hretry
        exact absurd hretry (by simp)

/-- A loaded font whose single 10 by 10 cache level is too small to pack a
50-px-wide glyph. -/
def tinyFont : FontState :=
  { glyphs := FC_MapCreate 300,
    last_glyph := { rect := { x := 1, y := 1, w := 0, h := 10 }, cache_level := 0 },
    glyph_cache_count := 1,
    glyph_cache := [(10, 10)],
    height := 10,
    ttf_source := true }

/-- An environment whose rasterizer knows only codepoint 66 (a 50 by 10
surface) and whose texture creation succeeds. -/
def envTest : ProviderEnv :=
  { raster := fun cp => if cp = 66 then some (50, 10) else none,
    create_texture_ok := true }

/-- `tinyFont` with codepoint 65 already cached. -/
def fontWithA : FontState :=
  { tinyFont with glyphs := FC_MapInsert tinyFont.glyphs 65 (FC_MakeGlyphData 0 3 1 10 10) }

/-- Witness for C4: the cached-codepoint path at codepoint 65, and the
pack-fail/grow-once/retry-once/fail path at codepoint 66 on the tiny
cache. -/
theorem getGlyphData_paths_witness :
    (FC_MapFind fontWithA.glyphs 65 = some (FC_MakeGlyphData 0 3 1 10 10) ∧
      FC_GetGlyphData envTest 4 fontWithA 65 =
        { ok := true, result := some (FC_MakeGlyphData 0 3 1 10 10), font := fontWithA,
          packAttempts := 0, growCalls := 0 }) ∧
    ((FC_MapFind tinyFont.glyphs 66 = none ∧
        tinyFont.ttf_source = true ∧
        FC_GetGlyphCacheLevel tinyFont tinyFont.last_glyph.cache_level = some (10, 10) ∧
        envTest.raster 66 = some (50, 10) ∧
        (FC_PackGlyphData tinyFont 4 66 (50 % 65536) (10 % 65536) (10 % 65536)).1 = none) ∧
      ((FC_GetGlyphData envTest 4 tinyFont 66).packAttempts = 2 ∧
        (FC_GetGlyphData envTest 4 tinyFont 66).growCalls = 1 ∧
        (envTest.create_texture_ok = true → 0 ≤ tinyFont.glyph_cache_count →
          (FC_GetGlyphData envTest 4 tinyFont 66).font.glyph_cache_count =
            tinyFont.glyph_cache_count + 1) ∧
        ((FC_PackGlyphData
              (FC_GrowGlyphCache envTest
                (FC_PackGlyphData tinyFont 4 66 (50 % 65536) (10 % 65536) (10 % 65536)).2).2
              4 66 (50 % 65536) (10 % 65536) (10 % 65536)).1 = none →
          (FC_GetGlyphData envTest 4 tinyFont 66).ok = false ∧
          (FC_GetGlyphData envTest 4 tinyFont 66).result = none))) :=
  ⟨⟨by decide,
    getGlyphData_paths.1 envTest 4 fontWithA 65 (FC_MakeGlyphData 0 3 1 10 10) (by decide)⟩,
    ⟨⟨by decide, by decide, by decide, by decide, by decide⟩,
      getGlyphData_paths.2.2 envTest 4 tinyFont 66 10 10 50 10 (by decide) (by decide)
        (by decide) (by decide) (by decide)⟩⟩
